import Mathlib

/-! The `fsm` package: transition table construction, event dispatch, dot export.

A shallow embedding of `fsm/fsm.go`.

* Go maps are association lists with pairwise distinct keys (`mapLookup`,
  `mapStore`); the order of the list is the order in which a `range` loop
  visits the entries in the run under consideration.
* `context.Context`, `*State` and `ArgsType` values are references.  The
  holder cells live in the `heap` of a `World`; everything else a callback can
  reach (the contents of the argument bag included) is the `user` component.
* A non-nil `Callback` is a function that returns: it is embedded as a total
  transformer of the `World`.  A nil function value is `none`.
* `SendEvent` produces a `Run`: how the call ended, the world it left behind,
  the callback invocations and holder writes it performed, in order, and the
  records it handed to the logger.
-/

set_option autoImplicit false
set_option maxRecDepth 8000

namespace fsm

/-! ## Data model -/

/-- Modelled from the spec: the type `StateType` is declared in a file of the
package that is not part of the sources at hand; the spec calls a state "an
opaque identifier (string-like token)", and `fsm.go` formats it with `%s`. -/
abbrev StateType := String

/-- Source: `EventType string`. -/
abbrev EventType := String

/-- A `context.Context` value, identified by its reference. -/
structure Context where
  ref : Nat
  deriving DecidableEq, Repr

/-- Source: `ArgsType map[string]any`.  A map value is a reference to the bag;
the contents of the bag are part of `World.user`. -/
structure ArgsType where
  ref : Nat
  deriving DecidableEq, Repr

/-- Modelled from the spec: the current-state holder `State` is declared in a
file of the package that is not part of the sources at hand; the spec describes
it as "an externally owned mutable cell exposing `Current() State` and
`Set(State)`". -/
structure State where
  current : StateType
  deriving DecidableEq, Repr

/-- Modelled from the spec: `Current()` reads the cell. -/
def State.Current (s : State) : StateType := s.current

/-- Modelled from the spec: `Set(next)` overwrites the cell. -/
def State.Set (_s : State) (next : StateType) : State := { current := next }

/-- The program state a dispatch runs in: the holder cells, by address, and the
remaining state that callbacks act on. -/
structure World (σ : Type) where
  heap : Nat → State
  user : σ

/-- The effect of `state.Set(next)` for the holder at address `state`. -/
def World.setState {σ : Type} (w : World σ) (state : Nat) (next : StateType) : World σ :=
  { w with heap := Function.update w.heap state ((w.heap state).Set next) }

/-- Source: `Callback func(context.Context, *State, EventType, ArgsType)`.
The value `none` is the nil function. -/
abbrev Callback (σ : Type) := Option (Context → Nat → EventType → ArgsType → World σ → World σ)

/-- Source: `Transition` struct. -/
structure Transition where
  Event : EventType
  From : StateType
  To : StateType
  deriving DecidableEq, Repr

/-- Source: `Transitions []Transition`. -/
abbrev Transitions := List Transition

/-- Source: `eventKey` struct. -/
structure eventKey where
  Event : EventType
  From : StateType
  deriving DecidableEq, Repr

/-- Source: `EntryEvent`. -/
def EntryEvent : EventType := "Entry event"

/-- Source: `ExitEvent`. -/
def ExitEvent : EventType := "Exit event"

/-! ## Go maps -/

/-- A Go map, as the list of its entries. -/
abbrev GoMap (κ ν : Type) := List (κ × ν)

/-- The lookup `v, ok := m[k]`: `none` when `ok` is false. -/
def mapLookup {κ ν : Type} [DecidableEq κ] : GoMap κ ν → κ → Option ν
  | [], _ => none
  | (k', v) :: rest, k => if k' = k then some v else mapLookup rest k

/-- The assignment `m[k] = v`. -/
def mapStore {κ ν : Type} [DecidableEq κ] : GoMap κ ν → κ → ν → GoMap κ ν
  | [], k, v => [(k, v)]
  | (k', v') :: rest, k, v =>
    if k' = k then (k, v) :: rest else (k', v') :: mapStore rest k v

/-- Source: `Callbacks map[StateType]Callback`. -/
abbrev Callbacks (σ : Type) := GoMap StateType (Callback σ)

/-- Source: `FSM` struct. -/
structure FSM (σ : Type) where
  transitions : GoMap eventKey Transition
  callbacks : GoMap StateType (Callback σ)

/-! ## Errors -/

/-- The three `fmt.Errorf` calls of the package, with their arguments. -/
inductive Error where
  | duplicateTransition (transition : Transition)
  | unknownState (state : StateType)
  | unknownTransition (From : StateType) (Event : EventType)
  deriving DecidableEq, Repr

/-- The message of an error: the format strings of `fsm.go` (`%+v` of a
`Transition` prints the field names). -/
def Error.message : Error → String
  | .duplicateTransition t =>
    "duplicate transition: \x7bEvent:" ++ t.Event ++ " From:" ++ t.From ++ " To:" ++ t.To ++ "\x7d"
  | .unknownState s => "unknown state: " ++ s
  | .unknownTransition f e => "unknown transition[From: " ++ f ++ ", Event: " ++ e ++ "]"

/-! ## `NewFSM` -/

/-- The first loop of `NewFSM`, over the remaining declarations, from the table
and the state set built so far. -/
def registerTransitions :
    List Transition → GoMap eventKey Transition → GoMap StateType Bool →
      Except Error (GoMap eventKey Transition × GoMap StateType Bool)
  | [], table, allStates => .ok (table, allStates)
  | transition :: rest, table, allStates =>
    let key : eventKey := { Event := transition.Event, From := transition.From }
    match mapLookup table key with
    | some _ => .error (.duplicateTransition transition)
    | none =>
      registerTransitions rest (mapStore table key transition)
        (mapStore (mapStore allStates transition.From true) transition.To true)

/-- The second loop of `NewFSM`, over the remaining entries of `callbacks`, from
the registry built so far. -/
def registerCallbacks {σ : Type} (allStates : GoMap StateType Bool) :
    List (StateType × Callback σ) → GoMap StateType (Callback σ) →
      Except Error (GoMap StateType (Callback σ))
  | [], registry => .ok registry
  | (state, callback) :: rest, registry =>
    match mapLookup allStates state with
    | none => .error (.unknownState state)
    | some _ => registerCallbacks allStates rest (mapStore registry state callback)

/-- Source: `NewFSM`.  The result is the Go pair `(*FSM, error)`. -/
def NewFSM {σ : Type} (transitions : Transitions) (callbacks : Callbacks σ) :
    Option (FSM σ) × Option Error :=
  match registerTransitions transitions [] [] with
  | .error err => (none, some err)
  | .ok (table, allStates) =>
    match registerCallbacks allStates callbacks [] with
    | .error err => (none, some err)
    | .ok registry => (some { transitions := table, callbacks := registry }, none)

/-! ## `SendEvent` -/

/-- What a dispatch does to its surroundings: it invokes the callback registered
under `owner`, or it writes a holder. -/
inductive Action where
  | call (owner : StateType) (ctx : Context) (state : Nat) (event : EventType) (args : ArgsType)
  | set (state : Nat) (next : StateType)
  deriving DecidableEq, Repr

/-- An action of a dispatch together with what the holder of the dispatch read
as at the moment the action began. -/
structure Step where
  action : Action
  seen : StateType
  deriving DecidableEq, Repr

/-- How a call of `SendEvent` ends: it returns its `error` result, or it
faults on calling the nil function found under `owner`. -/
inductive Outcome where
  | returned (err : Option Error)
  | nilCallback (owner : StateType)
  deriving DecidableEq, Repr

/-- A dispatch in progress: the world, the steps taken and the log records
emitted so far. -/
structure Dispatch (σ : Type) where
  world : World σ
  trace : List Step
  logs : List String

/-- A finished call of `SendEvent`. -/
structure Run (σ : Type) where
  outcome : Outcome
  world : World σ
  trace : List Step
  logs : List String

/-- The expression `fsm.callbacks[owner]`: the zero value (nil) when the key is
absent. -/
def FSM.callbackAt {σ : Type} (fsm : FSM σ) (owner : StateType) : Callback σ :=
  match mapLookup fsm.callbacks owner with
  | some callback => callback
  | none => none

/-- The statement `fsm.callbacks[owner](ctx, state, event, args)`. -/
def invoke {σ : Type} (fsm : FSM σ) (owner : StateType) (ctx : Context) (state : Nat)
    (event : EventType) (args : ArgsType) (d : Dispatch σ) :
    Except (StateType × Dispatch σ) (Dispatch σ) :=
  match fsm.callbackAt owner with
  | none => .error (owner, d)
  | some f =>
    .ok { d with
          world := f ctx state event args d.world
          trace := d.trace ++ [{ action := .call owner ctx state event args,
                                  seen := (d.world.heap state).Current }] }

/-- The statement `state.Set(next)`. -/
def writeHolder {σ : Type} (state : Nat) (next : StateType) (d : Dispatch σ) : Dispatch σ :=
  { d with
    world := d.world.setState state next
    trace := d.trace ++ [{ action := .set state next, seen := (d.world.heap state).Current }] }

/-- Modelled from the spec: the logger `logger.FsmLog` is not part of the sources
at hand; `Infof` is taken to hand the formatted record to the log sink. -/
def Infof {σ : Type} (record : String) (d : Dispatch σ) : Dispatch σ :=
  { d with logs := d.logs ++ [record] }

/-- The body of the `ok` branch of `SendEvent`. -/
def dispatch {σ : Type} (fsm : FSM σ) (trans : Transition) (ctx : Context) (state : Nat)
    (event : EventType) (args : ArgsType) (d : Dispatch σ) :
    Except (StateType × Dispatch σ) (Dispatch σ) := do
  let d := Infof ("handle event[" ++ event ++ "], transition from [" ++ trans.From
    ++ "] to [" ++ trans.To ++ "]") d
  -- event callback
  let d ← invoke fsm trans.From ctx state event args d
  -- exit callback
  let d ← if trans.From ≠ trans.To then invoke fsm trans.From ctx state ExitEvent args d
          else pure d
  -- entry callback
  let d ← if trans.From ≠ trans.To then
            invoke fsm trans.To ctx state EntryEvent args (writeHolder state trans.To d)
          else pure d
  return d

/-- Source: `FSM.SendEvent`, called in world `w` with the holder at address
`state` (a holder, so not the nil pointer).  The error branch reads the holder a
second time, for the message; nothing runs between the two reads. -/
def SendEvent {σ : Type} (fsm : FSM σ) (ctx : Context) (state : Nat) (event : EventType)
    (args : ArgsType) (w : World σ) : Run σ :=
  let key : eventKey := { From := (w.heap state).Current, Event := event }
  match mapLookup fsm.transitions key with
  | some transition =>
    match dispatch fsm transition ctx state event args { world := w, trace := [], logs := [] } with
    | .ok d => { outcome := .returned none, world := d.world, trace := d.trace, logs := d.logs }
    | .error (owner, d) =>
      { outcome := .nilCallback owner, world := d.world, trace := d.trace, logs := d.logs }
  | none =>
    { outcome := .returned (some (.unknownTransition (w.heap state).Current event))
      world := w, trace := [], logs := [] }

/-! ## `ExportDot` -/

/-- The raw string literal that opens the text. -/
def dotHeader : String :=
  "digraph FSM \x7b\n\trankdir=LR\n\tsize=\"100\"\n    node[width=1 fixedsize=false shape=ellipse style=filled fillcolor=\"skyblue\"]\n\t"

/-- The value of `link` in the loop of `ExportDot`. -/
def link (transition : Transition) : String :=
  "\t" ++ transition.From ++ " -> " ++ transition.To ++ " [label=\"" ++ transition.Event ++ "\"]"

/-- The loop of `ExportDot` over the entries still to visit. -/
def dotLoop : List (eventKey × Transition) → String → String
  | [], dot => dot
  | (_, transition) :: rest, dot => dotLoop rest (dot ++ "\r\n" ++ link transition)

/-- The value of `dot` when `ExportDot` writes it, for a loop that visits the
table entries in the order `visit`. -/
def dotText (visit : List (eventKey × Transition)) : String :=
  dotLoop visit dotHeader ++ "\r\n\x7d\n"

/-- Source: `strings.HasSuffix`. -/
def HasSuffix (s suffix : String) : Bool := decide (suffix.data <:+ s.data)

/-- The value of `outfile` when `ExportDot` creates the file. -/
def dotPath (outfile : String) : String :=
  if !HasSuffix outfile ".dot" then outfile ++ ".dot" else outfile

/-- What `ExportDot` asks of the file system: the file to create and the text
to write to it. -/
structure FileWrite where
  path : String
  content : String
  deriving DecidableEq, Repr

/-- Source: `ExportDot`, up to the calls of `os.Create` and `WriteString`: the
file it creates and the text it writes. -/
def ExportDot {σ : Type} (fsm : FSM σ) (outfile : String) : FileWrite :=
  { path := dotPath outfile, content := dotText fsm.transitions }

/-! ## Vocabulary of the properties -/

/-- The key under which `NewFSM` files a declaration. -/
def keyOf (t : Transition) : eventKey := { Event := t.Event, From := t.From }

/-- The table entry `NewFSM` makes of a declaration. -/
def entryOf (t : Transition) : eventKey × Transition := (keyOf t, t)

/-- The state `s` is the `From` or the `To` of a declaration of the list. -/
def Mentions (transitions : Transitions) (s : StateType) : Prop :=
  ∃ t ∈ transitions, t.From = s ∨ t.To = s

instance (transitions : Transitions) (s : StateType) : Decidable (Mentions transitions s) := by
  unfold Mentions; infer_instance

/-- No two declarations of the list have the same `(From, Event)`. -/
def DistinctKeys (transitions : Transitions) : Prop :=
  transitions.Pairwise (fun a b => ¬ (a.From = b.From ∧ a.Event = b.Event))

instance (transitions : Transitions) : Decidable (DistinctKeys transitions) := by
  unfold DistinctKeys; infer_instance

/-- The first declaration, in list order, whose key is among `seen` or among
the keys of the declarations before it. -/
def firstDuplicate : List eventKey → List Transition → Option Transition
  | _, [] => none
  | seen, t :: rest =>
    if keyOf t ∈ seen then some t else firstDuplicate (seen ++ [keyOf t]) rest

/-- The state set `NewFSM` accumulates over a list of declarations. -/
def addStates : List Transition → GoMap StateType Bool → GoMap StateType Bool
  | [], allStates => allStates
  | t :: rest, allStates => addStates rest (mapStore (mapStore allStates t.From true) t.To true)

/-- The registry `NewFSM` accumulates over the entries of `callbacks`. -/
def addCallbacks {σ : Type} :
    List (StateType × Callback σ) → GoMap StateType (Callback σ) → GoMap StateType (Callback σ)
  | [], registry => registry
  | (state, callback) :: rest, registry => addCallbacks rest (mapStore registry state callback)

/-- The lines of a text: the pieces between line feeds. -/
def splitLines : List Char → List (List Char)
  | [] => [[]]
  | c :: cs =>
    if c = '\n' then [] :: splitLines cs
    else match splitLines cs with
      | [] => [[c]]
      | l :: ls => (c :: l) :: ls

/-- An edge line of the exported text: it starts with a tab and holds the edge
operator and a label attribute. -/
def isEdgeLine (l : List Char) : Bool :=
  decide ("\t".data <+: l) && decide (" -> ".data <:+: l) && decide (" [label=\"".data <:+: l)

/-- The number of edge lines of a text. -/
def edgeCount (text : String) : Nat :=
  ((splitLines text.data).filter isEdgeLine).length

/-- A name that holds no line feed. -/
def SingleLine (s : String) : Prop := '\n' ∉ s.data

instance (s : String) : Decidable (SingleLine s) := by
  unfold SingleLine; infer_instance

/-- The three names of a declaration hold no line feed. -/
def NamesSingleLine (t : Transition) : Prop :=
  SingleLine t.From ∧ SingleLine t.To ∧ SingleLine t.Event

instance (t : Transition) : Decidable (NamesSingleLine t) := by
  unfold NamesSingleLine; infer_instance

/-! ## Example machines -/

/-- A callback body that appends its label and the event to a shared log. -/
def loggingFn (label : String) :
    Context → Nat → EventType → ArgsType → World (List String) → World (List String) :=
  fun _ _ event _ w => { w with user := w.user ++ [label ++ ":" ++ event] }

/-- A callback body that logs and then calls `Set(next)` on the holder it is
given. -/
def meddlingFn (label : String) (next : StateType) :
    Context → Nat → EventType → ArgsType → World (List String) → World (List String) :=
  fun _ state event _ w =>
    { w with user := w.user ++ [label ++ ":" ++ event] }.setState state next

/-- The logging callback, as a function value. -/
def logging (label : String) : Callback (List String) := some (loggingFn label)

/-- The meddling callback, as a function value. -/
def meddling (label : String) (next : StateType) : Callback (List String) :=
  some (meddlingFn label next)

/-- A world whose holders all read `s`, with an empty log. -/
def worldAt (s : StateType) : World (List String) := { heap := fun _ => { current := s }, user := [] }

/-- The table of the scenarios: `start` from Idle to Running and the self-loop
`ping` on Idle. -/
def demoTransitions : Transitions :=
  [{ Event := "start", From := "Idle", To := "Running" },
   { Event := "ping", From := "Idle", To := "Idle" }]

/-- The registry of the scenarios. -/
def demoCallbacks : Callbacks (List String) :=
  [("Idle", logging "Idle"), ("Running", logging "Running")]

/-- The machine of the scenarios, as `NewFSM` builds it. -/
def demoFSM : FSM (List String) :=
  { transitions := demoTransitions.map entryOf, callbacks := demoCallbacks }

/-- The one-edge table of the first scenario. -/
def startTransitions : Transitions := [{ Event := "start", From := "Idle", To := "Running" }]

/-- A registry whose Idle callback writes the holder. -/
def meddlingCallbacks : Callbacks (List String) :=
  [("Idle", meddling "Idle" "Elsewhere"), ("Running", logging "Running")]

/-- The machine `NewFSM` builds of `startTransitions` and `meddlingCallbacks`. -/
def meddlingFSM : FSM (List String) :=
  { transitions := startTransitions.map entryOf, callbacks := meddlingCallbacks }

/-- A list that declares `start` from Idle twice. -/
def clashTransitions : Transitions :=
  [{ Event := "start", From := "Idle", To := "Running" },
   { Event := "start", From := "Idle", To := "Idle" }]

/-- A registry with a callback for a state no declaration mentions. -/
def ghostCallbacks : Callbacks (List String) := [("Ghost", logging "Ghost")]

/-- A table with one entry whose `To` name holds a line break. -/
def injectedTransitions : Transitions :=
  [{ Event := "f", From := "a", To := "b [label=\"e\"]\r\n\tc -> d" }]

/-- A table with two entries and plain names. -/
def plainTransitions : Transitions :=
  [{ Event := "e", From := "a", To := "b" }, { Event := "f", From := "c", To := "d" }]

/-- The machine `NewFSM` builds of `injectedTransitions`. -/
def injectedFSM : FSM Unit := { transitions := injectedTransitions.map entryOf, callbacks := [] }

/-- The machine `NewFSM` builds of `plainTransitions`. -/
def plainFSM : FSM Unit := { transitions := plainTransitions.map entryOf, callbacks := [] }

/-- The characters of the exported text after the header and its line break:
one line per visited entry, then the closing lines. -/
def bodyChars : List (eventKey × Transition) → List Char
  | [] => "\x7d\n".data
  | (_, transition) :: rest => (link transition).data ++ '\r' :: '\n' :: bodyChars rest

/-- The list stands for a Go map: no key occurs twice in it. -/
def IsMap {κ ν : Type} (m : GoMap κ ν) : Prop := (m.map Prod.fst).Nodup

instance {κ ν : Type} [DecidableEq κ] (m : GoMap κ ν) : Decidable (IsMap m) := by
  unfold IsMap; infer_instance

/-- The table of the scenarios in the other order. -/
def swappedTransitions : Transitions :=
  [{ Event := "ping", From := "Idle", To := "Idle" },
   { Event := "start", From := "Idle", To := "Running" }]

/-- A registry with a callback for Idle only. -/
def halfCallbacks : Callbacks (List String) := [("Idle", logging "Idle")]

/-- The machine `NewFSM` builds of `startTransitions` and `halfCallbacks`. -/
def halfFSM : FSM (List String) :=
  { transitions := startTransitions.map entryOf, callbacks := halfCallbacks }

/-- The machine `NewFSM` builds of `startTransitions` and an empty registry. -/
def bareFSM : FSM (List String) :=
  { transitions := startTransitions.map entryOf, callbacks := [] }

/-- A sequence of calls of `SendEvent` on the holder at address `state`, each
given by its context, event and argument bag; the next call starts in the world
the previous one left, however that one ended. -/
def sendAll {σ : Type} (fsm : FSM σ) (state : Nat) :
    List (Context × EventType × ArgsType) → World σ → World σ
  | [], w => w
  | (ctx, event, args) :: rest, w =>
    sendAll fsm state rest (SendEvent fsm ctx state event args w).world

/-! ## Go maps: lookup after store -/

theorem mapLookup_append {κ ν : Type} [DecidableEq κ] (m m' : GoMap κ ν) (k : κ) :
    mapLookup (m ++ m') k = (mapLookup m k).orElse (fun _ => mapLookup m' k) := by
  induction m with
  | nil => simp [mapLookup]
  | cons e rest ih =>
    obtain ⟨k', v⟩ := e
    by_cases h : k' = k <;> simp [mapLookup, h, ih]

theorem mapStore_of_absent {κ ν : Type} [DecidableEq κ] (m : GoMap κ ν) (k : κ) (v : ν)
    (h : mapLookup m k = none) : mapStore m k v = m ++ [(k, v)] := by
  induction m with
  | nil => simp [mapStore]
  | cons e rest ih =>
    obtain ⟨k', v'⟩ := e
    by_cases hk : k' = k
    · simp [mapLookup, hk] at h
    · simp only [mapLookup, hk, if_false] at h
      simp [mapStore, hk, ih h]

theorem mapLookup_mapStore {κ ν : Type} [DecidableEq κ] (m : GoMap κ ν) (k k' : κ) (v : ν) :
    mapLookup (mapStore m k v) k' = if k = k' then some v else mapLookup m k' := by
  induction m with
  | nil => simp [mapStore, mapLookup]
  | cons e rest ih =>
    obtain ⟨k₀, v₀⟩ := e
    by_cases h₀ : k₀ = k
    · subst h₀
      by_cases h₁ : k₀ = k' <;> simp [mapStore, mapLookup, h₁]
    · by_cases h₁ : k₀ = k'
      · subst h₁
        have : ¬ k = k₀ := fun h => h₀ h.symm
        simp [mapStore, mapLookup, h₀, this]
      · simp [mapStore, mapLookup, h₀, h₁, ih]

theorem mapLookup_eq_none_iff {κ ν : Type} [DecidableEq κ] (m : GoMap κ ν) (k : κ) :
    mapLookup m k = none ↔ k ∉ m.map Prod.fst := by
  induction m with
  | nil => simp [mapLookup]
  | cons e rest ih =>
    obtain ⟨k', v⟩ := e
    by_cases h : k' = k
    · simp [mapLookup, h]
    · have h' : ¬ k = k' := fun e => h e.symm
      simp [mapLookup, h, h', ih]

theorem map_fst_entryOf (ts : List Transition) :
    (ts.map entryOf).map Prod.fst = ts.map keyOf := by
  simp [entryOf, Function.comp_def]

/-- In a table made of declarations with distinct keys, each declaration is
found under its own key. -/
theorem mapLookup_entryOf (ts : List Transition) (h : (ts.map keyOf).Nodup) (t : Transition)
    (ht : t ∈ ts) : mapLookup (ts.map entryOf) (keyOf t) = some t := by
  induction ts with
  | nil => simp at ht
  | cons a rest ih =>
    simp only [List.map_cons, List.nodup_cons] at h
    rcases List.mem_cons.mp ht with rfl | hmem
    · simp [entryOf, mapLookup]
    · have hne : keyOf a ≠ keyOf t := by
        intro e
        exact h.1 (e ▸ List.mem_map_of_mem keyOf hmem)
      simp [entryOf, mapLookup, hne]
      simpa [entryOf] using ih h.2 hmem

/-- What a table made of declarations yields is a declaration of the list,
filed under its own key. -/
theorem mapLookup_entryOf_some (ts : List Transition) (k : eventKey) (t : Transition)
    (h : mapLookup (ts.map entryOf) k = some t) : t ∈ ts ∧ keyOf t = k := by
  induction ts with
  | nil => simp [mapLookup] at h
  | cons a rest ih =>
    by_cases hk : keyOf a = k
    · simp [entryOf, mapLookup, hk] at h
      subst h
      exact ⟨List.mem_cons_self _ _, hk⟩
    · simp only [List.map_cons, entryOf, mapLookup, hk, if_false] at h
      have := ih (by simpa [entryOf] using h)
      exact ⟨List.mem_cons_of_mem _ this.1, this.2⟩

/-! ## `NewFSM`: the two loops -/

theorem firstDuplicate_eq_none_iff (seen : List eventKey) (ts : List Transition)
    (hseen : seen.Nodup) :
    firstDuplicate seen ts = none ↔ (seen ++ ts.map keyOf).Nodup := by
  induction ts generalizing seen with
  | nil => simp [firstDuplicate, hseen]
  | cons t rest ih =>
    by_cases hm : keyOf t ∈ seen
    · simp only [firstDuplicate, hm, if_true, List.map_cons]
      constructor
      · intro h; cases h
      · intro h
        exact absurd ((List.nodup_append.mp h).2.2 hm (List.mem_cons_self _ _)) id
    · have hseen' : (seen ++ [keyOf t]).Nodup := by
        rw [List.nodup_append]
        refine ⟨hseen, List.nodup_singleton _, ?_⟩
        intro a ha hb
        simp only [List.mem_singleton] at hb
        exact hm (hb ▸ ha)
      simp only [firstDuplicate, hm, if_false, List.map_cons]
      rw [ih _ hseen']
      simp [List.append_assoc]

/-- The first loop of `NewFSM`, started on a table made of the declarations
`pre`: it stops at the first duplicate, and otherwise files every declaration,
in order. -/
theorem registerTransitions_eq (ts pre : List Transition) (allStates : GoMap StateType Bool) :
    registerTransitions ts (pre.map entryOf) allStates =
      match firstDuplicate (pre.map keyOf) ts with
      | some t => .error (.duplicateTransition t)
      | none => .ok ((pre ++ ts).map entryOf, addStates ts allStates) := by
  induction ts generalizing pre allStates with
  | nil => simp [registerTransitions, firstDuplicate, addStates]
  | cons t rest ih =>
    by_cases hm : keyOf t ∈ pre.map keyOf
    · have hl : mapLookup (pre.map entryOf) (keyOf t) ≠ none := by
        rw [Ne, mapLookup_eq_none_iff, map_fst_entryOf]
        exact fun h => h hm
      obtain ⟨v, hv⟩ := Option.ne_none_iff_exists'.mp hl
      have hv' : mapLookup (pre.map entryOf) { Event := t.Event, From := t.From } = some v := hv
      simp only [registerTransitions, hv', firstDuplicate, hm, if_true]
    · have hl : mapLookup (pre.map entryOf) (keyOf t) = none := by
        rw [mapLookup_eq_none_iff, map_fst_entryOf]
        exact hm
      have hl' : mapLookup (pre.map entryOf) { Event := t.Event, From := t.From } = none := hl
      have hstore : mapStore (pre.map entryOf) { Event := t.Event, From := t.From } t
          = (pre ++ [t]).map entryOf := by
        have := mapStore_of_absent (pre.map entryOf) (keyOf t) t hl
        simpa [entryOf, keyOf] using this
      simp only [registerTransitions, hl', firstDuplicate, hm, if_false, hstore]
      rw [ih (pre ++ [t])]
      simp [addStates, List.append_assoc]

theorem mapLookup_addStates_isSome (ts : List Transition) (allStates : GoMap StateType Bool)
    (s : StateType) :
    (mapLookup (addStates ts allStates) s).isSome ↔
      (mapLookup allStates s).isSome ∨ Mentions ts s := by
  induction ts generalizing allStates with
  | nil => simp [addStates, Mentions]
  | cons t rest ih =>
    simp only [addStates]
    rw [ih, mapLookup_mapStore, mapLookup_mapStore]
    unfold Mentions
    by_cases h₁ : t.To = s <;> by_cases h₂ : t.From = s <;> simp [h₁, h₂]

/-- The second loop of `NewFSM`: it stops at the first key that is not in the
state set, and otherwise registers every entry. -/
theorem registerCallbacks_eq {σ : Type} (allStates : GoMap StateType Bool)
    (cbs : List (StateType × Callback σ)) (registry : GoMap StateType (Callback σ)) :
    registerCallbacks allStates cbs registry =
      match cbs.find? (fun c => (mapLookup allStates c.1).isNone) with
      | some c => .error (.unknownState c.1)
      | none => .ok (addCallbacks cbs registry) := by
  induction cbs generalizing registry with
  | nil => simp [registerCallbacks, addCallbacks]
  | cons c rest ih =>
    obtain ⟨state, callback⟩ := c
    cases h : mapLookup allStates state with
    | none => simp [registerCallbacks, h, List.find?]
    | some b => simp [registerCallbacks, h, List.find?, ih, addCallbacks]

/-! ## `NewFSM`: the result -/

theorem distinctKeys_iff_nodup (ts : List Transition) :
    DistinctKeys ts ↔ (ts.map keyOf).Nodup := by
  unfold DistinctKeys List.Nodup
  rw [List.pairwise_map]
  apply Iff.intro <;> intro h <;> refine h.imp ?_
  · intro a b hab e
    simp only [keyOf, eventKey.mk.injEq] at e
    exact hab ⟨e.2, e.1⟩
  · intro a b hab e
    exact hab (by simp [keyOf, e.1, e.2])

theorem firstDuplicate_nil_eq_none_iff (ts : List Transition) :
    firstDuplicate [] ts = none ↔ DistinctKeys ts := by
  rw [firstDuplicate_eq_none_iff [] ts List.nodup_nil, distinctKeys_iff_nodup]
  simp

/-- The result of `NewFSM`, by cases on the two loops. -/
theorem NewFSM_eq {σ : Type} (ts : Transitions) (cbs : Callbacks σ) :
    NewFSM ts cbs =
      match firstDuplicate [] ts with
      | some t => (none, some (.duplicateTransition t))
      | none =>
        match cbs.find? (fun c => (mapLookup (addStates ts []) c.1).isNone) with
        | some c => (none, some (.unknownState c.1))
        | none => (some { transitions := ts.map entryOf, callbacks := addCallbacks cbs [] }, none) := by
  have h := registerTransitions_eq ts [] []
  simp only [List.map_nil, List.nil_append] at h
  unfold NewFSM
  rw [h]
  cases firstDuplicate [] ts with
  | some t => rfl
  | none =>
    simp only [registerCallbacks_eq]
    cases cbs.find? (fun c => (mapLookup (addStates ts []) c.1).isNone) <;> rfl

theorem isNone_addStates_iff (ts : Transitions) (s : StateType) :
    (mapLookup (addStates ts []) s).isNone = true ↔ ¬ Mentions ts s := by
  have h := mapLookup_addStates_isSome ts [] s
  simp only [mapLookup, Option.isSome_none, Bool.false_eq_true, false_or] at h
  rw [← h]
  cases mapLookup (addStates ts []) s <;> simp

/-- `NewFSM` succeeds exactly on a list with distinct keys and a registry whose
key states are all mentioned, and then returns the table of the declarations
and the registry of the callbacks. -/
theorem NewFSM_eq_some_iff {σ : Type} (ts : Transitions) (cbs : Callbacks σ) (fsm : FSM σ) :
    NewFSM ts cbs = (some fsm, none) ↔
      DistinctKeys ts ∧ (∀ c ∈ cbs, Mentions ts c.1) ∧
        fsm = { transitions := ts.map entryOf, callbacks := addCallbacks cbs [] } := by
  rw [NewFSM_eq, ← firstDuplicate_nil_eq_none_iff]
  cases hd : firstDuplicate [] ts with
  | some t => simp
  | none =>
    cases hf : cbs.find? (fun c => (mapLookup (addStates ts []) c.1).isNone) with
    | some c =>
      have hc := List.find?_some hf
      have hmem := List.mem_of_find?_eq_some hf
      simp only [Prod.mk.injEq, reduceCtorEq, false_and, true_and, false_iff, not_and]
      intro hall
      exact absurd (hall c hmem) ((isNone_addStates_iff ts c.1).mp hc)
    | none =>
      rw [List.find?_eq_none] at hf
      have hall : ∀ c ∈ cbs, Mentions ts c.1 := by
        intro c hc
        by_contra hn
        exact hf c hc ((isNone_addStates_iff ts c.1).mpr hn)
      simp only [Prod.mk.injEq, Option.some.injEq, and_true, true_and]
      constructor
      · intro h; exact ⟨hall, h.symm⟩
      · intro h; exact h.2.symm

/-! ## `SendEvent`: the three ways through -/

theorem callbackAt_of_registered {σ : Type} (fsm : FSM σ) (owner : StateType)
    (f : Context → Nat → EventType → ArgsType → World σ → World σ)
    (h : mapLookup fsm.callbacks owner = some (some f)) : fsm.callbackAt owner = some f := by
  simp [FSM.callbackAt, h]

theorem SendEvent_of_absent {σ : Type} (fsm : FSM σ) (ctx : Context) (state : Nat)
    (event : EventType) (args : ArgsType) (w : World σ)
    (h : mapLookup fsm.transitions { From := (w.heap state).Current, Event := event } = none) :
    SendEvent fsm ctx state event args w =
      { outcome := .returned (some (.unknownTransition (w.heap state).Current event))
        world := w, trace := [], logs := [] } := by
  simp [SendEvent, h]

theorem SendEvent_of_loop {σ : Type} (fsm : FSM σ) (ctx : Context) (state : Nat)
    (event : EventType) (args : ArgsType) (w : World σ) (t : Transition)
    (f : Context → Nat → EventType → ArgsType → World σ → World σ)
    (h : mapLookup fsm.transitions { From := (w.heap state).Current, Event := event } = some t)
    (hself : t.From = t.To) (hf : fsm.callbackAt t.From = some f) :
    SendEvent fsm ctx state event args w =
      { outcome := .returned none
        world := f ctx state event args w
        trace := [{ action := .call t.From ctx state event args, seen := (w.heap state).Current }]
        logs := ["handle event[" ++ event ++ "], transition from [" ++ t.From ++ "] to ["
          ++ t.To ++ "]"] } := by
  have hf' := hf
  rw [hself] at hf'
  simp only [SendEvent, h]
  simp [dispatch, invoke, Infof, hf', hself, bind, Except.bind, pure, Except.pure]

theorem SendEvent_of_move {σ : Type} (fsm : FSM σ) (ctx : Context) (state : Nat)
    (event : EventType) (args : ArgsType) (w : World σ) (t : Transition)
    (f g : Context → Nat → EventType → ArgsType → World σ → World σ)
    (h : mapLookup fsm.transitions { From := (w.heap state).Current, Event := event } = some t)
    (hne : t.From ≠ t.To) (hf : fsm.callbackAt t.From = some f)
    (hg : fsm.callbackAt t.To = some g) :
    SendEvent fsm ctx state event args w =
      { outcome := .returned none
        world := g ctx state EntryEvent args
          ((f ctx state ExitEvent args (f ctx state event args w)).setState state t.To)
        trace :=
          [{ action := .call t.From ctx state event args, seen := (w.heap state).Current },
           { action := .call t.From ctx state ExitEvent args,
             seen := ((f ctx state event args w).heap state).Current },
           { action := .set state t.To,
             seen := ((f ctx state ExitEvent args (f ctx state event args w)).heap state).Current },
           { action := .call t.To ctx state EntryEvent args, seen := t.To }]
        logs := ["handle event[" ++ event ++ "], transition from [" ++ t.From ++ "] to ["
          ++ t.To ++ "]"] } := by
  simp only [SendEvent, h]
  simp [dispatch, invoke, Infof, writeHolder, hf, hg, hne, bind, Except.bind, pure,
    Except.pure, World.setState, State.Current, State.Set]

/-- In a machine built by `NewFSM`, the transition found for the holder's state
and the event is a declaration of the list, leaving that state on that event. -/
theorem lookup_of_built {σ : Type} (ts : Transitions) (cbs : Callbacks σ) (fsm : FSM σ)
    (hbuild : NewFSM ts cbs = (some fsm, none)) (k : eventKey) (t : Transition)
    (h : mapLookup fsm.transitions k = some t) : t ∈ ts ∧ t.From = k.From ∧ t.Event = k.Event := by
  obtain ⟨-, -, rfl⟩ := (NewFSM_eq_some_iff ts cbs fsm).mp hbuild
  obtain ⟨hmem, hk⟩ := mapLookup_entryOf_some ts k t h
  subst hk
  exact ⟨hmem, rfl, rfl⟩

/-! ## Dispatch -/

/-- C1: in a machine built by `NewFSM`, when no declaration leaves the holder's
current state on the event, `SendEvent` returns the unknown-transition error,
takes no step (no callback invocation, no `Set`), emits no log record, leaves
the world (the holder included) as it was, and a second call from there ends
in the same way. -/
theorem C1_unknown_transition_is_noop {σ : Type} (ts : Transitions) (cbs : Callbacks σ)
    (fsm : FSM σ) (hbuild : NewFSM ts cbs = (some fsm, none))
    (ctx : Context) (state : Nat) (event : EventType) (args : ArgsType) (w : World σ)
    (hno : ∀ t ∈ ts, ¬ (t.From = (w.heap state).Current ∧ t.Event = event)) :
    (SendEvent fsm ctx state event args w).outcome
        = .returned (some (.unknownTransition (w.heap state).Current event)) ∧
      (SendEvent fsm ctx state event args w).trace = [] ∧
      (SendEvent fsm ctx state event args w).logs = [] ∧
      (SendEvent fsm ctx state event args w).world = w ∧
      SendEvent fsm ctx state event args (SendEvent fsm ctx state event args w).world
        = SendEvent fsm ctx state event args w := by
  have habs : mapLookup fsm.transitions { From := (w.heap state).Current, Event := event }
      = none := by
    cases hl : mapLookup fsm.transitions { From := (w.heap state).Current, Event := event } with
    | none => rfl
    | some t =>
      obtain ⟨hmem, hfrom, hev⟩ := lookup_of_built ts cbs fsm hbuild _ t hl
      exact absurd ⟨hfrom, hev⟩ (hno t hmem)
  have hrun := SendEvent_of_absent fsm ctx state event args w habs
  refine ⟨by rw [hrun], by rw [hrun], by rw [hrun], by rw [hrun], ?_⟩
  have hw : (SendEvent fsm ctx state event args w).world = w := by rw [hrun]
  rw [hw]

/-- The scenario of C1: with the table of the scenarios, `stop` from Idle gives
the unknown-transition error, an empty log and the state Idle. -/
theorem C1_unknown_transition_is_noop_witness :
    NewFSM demoTransitions demoCallbacks = (some demoFSM, none) ∧
      (∀ t ∈ demoTransitions, ¬ (t.From = ((worldAt "Idle").heap 0).Current ∧ t.Event = "stop")) ∧
      (SendEvent demoFSM ⟨1⟩ 0 "stop" ⟨2⟩ (worldAt "Idle")).outcome
        = .returned (some (.unknownTransition "Idle" "stop")) ∧
      (SendEvent demoFSM ⟨1⟩ 0 "stop" ⟨2⟩ (worldAt "Idle")).trace = [] ∧
      (SendEvent demoFSM ⟨1⟩ 0 "stop" ⟨2⟩ (worldAt "Idle")).world = worldAt "Idle" :=
  have h := C1_unknown_transition_is_noop demoTransitions demoCallbacks demoFSM rfl ⟨1⟩ 0 "stop"
    ⟨2⟩ (worldAt "Idle") (by decide)
  ⟨rfl, by decide, h.1, h.2.1, h.2.2.2.1⟩

/-- C2: when the transition `t` found for the holder's state and the event has
`t.From ≠ t.To` and callbacks `f`, `g` are registered for `t.From` and `t.To`,
`SendEvent` returns nil after exactly four steps, in this order: `f` with the
user event, `f` with `ExitEvent`, `Set(t.To)` on the holder, `g` with
`EntryEvent`, every callback being given the context, holder and argument bag of
the call; the world it leaves is the one these four steps produce, and the one
log record is the one of the lookup. -/
theorem C2_move_sequence {σ : Type} (fsm : FSM σ) (ctx : Context) (state : Nat)
    (event : EventType) (args : ArgsType) (w : World σ) (t : Transition)
    (f g : Context → Nat → EventType → ArgsType → World σ → World σ)
    (hlook : mapLookup fsm.transitions { From := (w.heap state).Current, Event := event } = some t)
    (hne : t.From ≠ t.To)
    (hf : mapLookup fsm.callbacks t.From = some (some f))
    (hg : mapLookup fsm.callbacks t.To = some (some g)) :
    (SendEvent fsm ctx state event args w).outcome = .returned none ∧
      (SendEvent fsm ctx state event args w).trace.map Step.action =
        [.call t.From ctx state event args, .call t.From ctx state ExitEvent args,
         .set state t.To, .call t.To ctx state EntryEvent args] ∧
      (SendEvent fsm ctx state event args w).world =
        g ctx state EntryEvent args
          ((f ctx state ExitEvent args (f ctx state event args w)).setState state t.To) ∧
      (SendEvent fsm ctx state event args w).logs =
        ["handle event[" ++ event ++ "], transition from [" ++ t.From ++ "] to [" ++ t.To ++ "]"] := by
  rw [SendEvent_of_move fsm ctx state event args w t f g hlook hne
    (callbackAt_of_registered fsm _ f hf) (callbackAt_of_registered fsm _ g hg)]
  exact ⟨rfl, rfl, rfl, rfl⟩

/-- The scenario of C2: `start` from Idle gives the log
`["Idle:start", "Idle:Exit event", "Running:Entry event"]` and the state
Running. -/
theorem C2_move_sequence_witness :
    mapLookup demoFSM.transitions { From := ((worldAt "Idle").heap 0).Current, Event := "start" }
        = some { Event := "start", From := "Idle", To := "Running" } ∧
      (SendEvent demoFSM ⟨1⟩ 0 "start" ⟨2⟩ (worldAt "Idle")).trace.map Step.action =
        [.call "Idle" ⟨1⟩ 0 "start" ⟨2⟩, .call "Idle" ⟨1⟩ 0 "Exit event" ⟨2⟩,
         .set 0 "Running", .call "Running" ⟨1⟩ 0 "Entry event" ⟨2⟩] ∧
      (SendEvent demoFSM ⟨1⟩ 0 "start" ⟨2⟩ (worldAt "Idle")).world.user
        = ["Idle:start", "Idle:Exit event", "Running:Entry event"] ∧
      ((SendEvent demoFSM ⟨1⟩ 0 "start" ⟨2⟩ (worldAt "Idle")).world.heap 0).Current = "Running" :=
  have h := C2_move_sequence demoFSM ⟨1⟩ 0 "start" ⟨2⟩ (worldAt "Idle")
    { Event := "start", From := "Idle", To := "Running" } (loggingFn "Idle") (loggingFn "Running")
    rfl (by decide) rfl rfl
  ⟨rfl, h.2.1, by rw [h.2.2.1]; decide, by rw [h.2.2.1]; decide⟩

/-- C3: when the transition `t` found for the holder's state and the event has
`t.From = t.To` and a callback `f` is registered for `t.From`, `SendEvent`
returns nil after exactly one step, the invocation of `f` with the user event:
no invocation with `ExitEvent` or `EntryEvent`, no `Set`; the world it leaves
is the one `f` produces. -/
theorem C3_self_loop {σ : Type} (fsm : FSM σ) (ctx : Context) (state : Nat)
    (event : EventType) (args : ArgsType) (w : World σ) (t : Transition)
    (f : Context → Nat → EventType → ArgsType → World σ → World σ)
    (hlook : mapLookup fsm.transitions { From := (w.heap state).Current, Event := event } = some t)
    (hself : t.From = t.To)
    (hf : mapLookup fsm.callbacks t.From = some (some f)) :
    (SendEvent fsm ctx state event args w).outcome = .returned none ∧
      (SendEvent fsm ctx state event args w).trace.map Step.action =
        [.call t.From ctx state event args] ∧
      (SendEvent fsm ctx state event args w).world = f ctx state event args w := by
  rw [SendEvent_of_loop fsm ctx state event args w t f hlook hself
    (callbackAt_of_registered fsm _ f hf)]
  exact ⟨rfl, rfl, rfl⟩

/-- The scenario of C3: `ping` from Idle gives the log `["Idle:ping"]` and the
state Idle. -/
theorem C3_self_loop_witness :
    mapLookup demoFSM.transitions { From := ((worldAt "Idle").heap 0).Current, Event := "ping" }
        = some { Event := "ping", From := "Idle", To := "Idle" } ∧
      (SendEvent demoFSM ⟨1⟩ 0 "ping" ⟨2⟩ (worldAt "Idle")).outcome = .returned none ∧
      (SendEvent demoFSM ⟨1⟩ 0 "ping" ⟨2⟩ (worldAt "Idle")).trace.map Step.action =
        [.call "Idle" ⟨1⟩ 0 "ping" ⟨2⟩] ∧
      (SendEvent demoFSM ⟨1⟩ 0 "ping" ⟨2⟩ (worldAt "Idle")).world.user = ["Idle:ping"] ∧
      ((SendEvent demoFSM ⟨1⟩ 0 "ping" ⟨2⟩ (worldAt "Idle")).world.heap 0).Current = "Idle" :=
  have h := C3_self_loop demoFSM ⟨1⟩ 0 "ping" ⟨2⟩ (worldAt "Idle")
    { Event := "ping", From := "Idle", To := "Idle" } (loggingFn "Idle") rfl rfl rfl
  ⟨rfl, h.1, h.2.1, by rw [h.2.2]; decide, by rw [h.2.2]; decide⟩

/-- C4, as stated, fails: built by `NewFSM` with an Idle callback that calls
`Set("Elsewhere")` on the holder it is given, the machine dispatches `start`
from Idle to Running, and the holder reads "Elsewhere", not Idle, at the moment
the exit callback is invoked. -/
theorem C4_counterexample :
    NewFSM startTransitions meddlingCallbacks = (some meddlingFSM, none) ∧
      mapLookup meddlingFSM.transitions
          { From := ((worldAt "Idle").heap 0).Current, Event := "start" }
        = some { Event := "start", From := "Idle", To := "Running" } ∧
      (SendEvent meddlingFSM ⟨1⟩ 0 "start" ⟨2⟩ (worldAt "Idle")).trace =
        [{ action := .call "Idle" ⟨1⟩ 0 "start" ⟨2⟩, seen := "Idle" },
         { action := .call "Idle" ⟨1⟩ 0 ExitEvent ⟨2⟩, seen := "Elsewhere" },
         { action := .set 0 "Running", seen := "Elsewhere" },
         { action := .call "Running" ⟨1⟩ 0 EntryEvent ⟨2⟩, seen := "Running" }] :=
  ⟨rfl, rfl, by decide⟩

/-- C4, amended: in a machine built by `NewFSM`, for a dispatch of a transition
`t` with `t.From ≠ t.To` and callbacks `f`, `g` registered for `t.From` and
`t.To`, the holder reads as `t.From` when the event callback is invoked, as
what the event callback left in it when the exit callback is invoked, and as
`t.To` when the entry callback is invoked; when the event callback does not
write the holder, the holder reads as `t.From` when the exit callback is
invoked. -/
theorem C4_readings_at_exit_and_entry {σ : Type} (ts : Transitions) (cbs : Callbacks σ)
    (fsm : FSM σ) (hbuild : NewFSM ts cbs = (some fsm, none))
    (ctx : Context) (state : Nat) (event : EventType) (args : ArgsType) (w : World σ)
    (t : Transition) (f g : Context → Nat → EventType → ArgsType → World σ → World σ)
    (hlook : mapLookup fsm.transitions { From := (w.heap state).Current, Event := event } = some t)
    (hne : t.From ≠ t.To)
    (hf : mapLookup fsm.callbacks t.From = some (some f))
    (hg : mapLookup fsm.callbacks t.To = some (some g)) :
    (SendEvent fsm ctx state event args w).trace =
        [{ action := .call t.From ctx state event args, seen := t.From },
         { action := .call t.From ctx state ExitEvent args,
           seen := ((f ctx state event args w).heap state).Current },
         { action := .set state t.To,
           seen := ((f ctx state ExitEvent args (f ctx state event args w)).heap state).Current },
         { action := .call t.To ctx state EntryEvent args, seen := t.To }] ∧
      ((f ctx state event args w).heap state = w.heap state →
        ((f ctx state event args w).heap state).Current = t.From) := by
  have hfrom : t.From = (w.heap state).Current := (lookup_of_built ts cbs fsm hbuild _ t hlook).2.1
  rw [SendEvent_of_move fsm ctx state event args w t f g hlook hne
    (callbackAt_of_registered fsm _ f hf) (callbackAt_of_registered fsm _ g hg)]
  refine ⟨by simp only [hfrom], ?_⟩
  intro hq
  rw [hq, hfrom]

/-- The scenario of C4: with logging callbacks, the holder reads Idle at the
exit callback and Running at the entry callback. -/
theorem C4_readings_at_exit_and_entry_witness :
    NewFSM demoTransitions demoCallbacks = (some demoFSM, none) ∧
      (SendEvent demoFSM ⟨1⟩ 0 "start" ⟨2⟩ (worldAt "Idle")).trace =
        [{ action := .call "Idle" ⟨1⟩ 0 "start" ⟨2⟩, seen := "Idle" },
         { action := .call "Idle" ⟨1⟩ 0 ExitEvent ⟨2⟩, seen := "Idle" },
         { action := .set 0 "Running", seen := "Idle" },
         { action := .call "Running" ⟨1⟩ 0 EntryEvent ⟨2⟩, seen := "Running" }] :=
  have h := C4_readings_at_exit_and_entry demoTransitions demoCallbacks demoFSM rfl ⟨1⟩ 0 "start"
    ⟨2⟩ (worldAt "Idle") { Event := "start", From := "Idle", To := "Running" }
    (loggingFn "Idle") (loggingFn "Running") rfl (by decide) rfl rfl
  ⟨rfl, h.1⟩

/-- C9: in a machine built by `NewFSM`, when a transition `t` is found for the
holder's state and the event, a callback is registered for `t.From`, one is
registered for `t.To` when `t.From ≠ t.To`, and no registered callback writes
the holder, `SendEvent` returns a nil error and the holder then reads `t.To`. -/
theorem C9_dispatch_reaches_To {σ : Type} (ts : Transitions) (cbs : Callbacks σ)
    (fsm : FSM σ) (hbuild : NewFSM ts cbs = (some fsm, none))
    (ctx : Context) (state : Nat) (event : EventType) (args : ArgsType) (w : World σ)
    (t : Transition)
    (hlook : mapLookup fsm.transitions { From := (w.heap state).Current, Event := event } = some t)
    (hfrom : ∃ f, mapLookup fsm.callbacks t.From = some (some f))
    (hto : t.From ≠ t.To → ∃ g, mapLookup fsm.callbacks t.To = some (some g))
    (hquiet : ∀ s f, mapLookup fsm.callbacks s = some (some f) →
      ∀ e w', (f ctx state e args w').heap state = w'.heap state) :
    (SendEvent fsm ctx state event args w).outcome = .returned none ∧
      ((SendEvent fsm ctx state event args w).world.heap state).Current = t.To := by
  have hcur : t.From = (w.heap state).Current := (lookup_of_built ts cbs fsm hbuild _ t hlook).2.1
  obtain ⟨f, hf⟩ := hfrom
  by_cases hself : t.From = t.To
  · rw [SendEvent_of_loop fsm ctx state event args w t f hlook hself
      (callbackAt_of_registered fsm _ f hf)]
    refine ⟨rfl, ?_⟩
    show ((f ctx state event args w).heap state).Current = t.To
    rw [hquiet _ f hf, ← hcur, hself]
  · obtain ⟨g, hg⟩ := hto hself
    rw [SendEvent_of_move fsm ctx state event args w t f g hlook hself
      (callbackAt_of_registered fsm _ f hf) (callbackAt_of_registered fsm _ g hg)]
    refine ⟨rfl, ?_⟩
    show ((g ctx state EntryEvent args _).heap state).Current = t.To
    rw [hquiet _ g hg]
    simp [World.setState, State.Current, State.Set]

/-- The scenario of C9: `start` from Idle returns nil and leaves the holder
reading Running. -/
theorem C9_dispatch_reaches_To_witness :
    NewFSM demoTransitions demoCallbacks = (some demoFSM, none) ∧
      (SendEvent demoFSM ⟨1⟩ 0 "start" ⟨2⟩ (worldAt "Idle")).outcome = .returned none ∧
      ((SendEvent demoFSM ⟨1⟩ 0 "start" ⟨2⟩ (worldAt "Idle")).world.heap 0).Current = "Running" :=
  ⟨rfl, C9_dispatch_reaches_To demoTransitions demoCallbacks demoFSM rfl ⟨1⟩ 0 "start" ⟨2⟩
    (worldAt "Idle") { Event := "start", From := "Idle", To := "Running" } rfl
    ⟨loggingFn "Idle", rfl⟩ (fun _ => ⟨loggingFn "Running", rfl⟩)
    (by
      intro s f hs e w'
      simp only [demoFSM, demoCallbacks, mapLookup, logging] at hs
      split_ifs at hs
      · simp only [Option.some.injEq] at hs
        subst hs
        rfl
      · simp only [Option.some.injEq] at hs
        subst hs
        rfl)⟩

/-! ## Construction -/

/-- C5: when two entries of the transition list, at positions `i < j`, have the
same `(From, Event)`, `NewFSM` returns no machine and a duplicate-transition
error, whatever the callback registry; the error carries an entry of the
list. -/
theorem C5_duplicate_key_rejected {σ : Type} (ts : Transitions) (cbs : Callbacks σ)
    (i j : Nat) (hij : i < j) (hj : j < ts.length)
    (hsame : (ts.get ⟨i, Nat.lt_trans hij hj⟩).From = (ts.get ⟨j, hj⟩).From ∧
      (ts.get ⟨i, Nat.lt_trans hij hj⟩).Event = (ts.get ⟨j, hj⟩).Event) :
    ∃ t ∈ ts, NewFSM ts cbs = (none, some (.duplicateTransition t)) := by
  have hnd : ¬ DistinctKeys ts := by
    intro hd
    unfold DistinctKeys at hd
    rw [List.pairwise_iff_getElem] at hd
    exact hd i j (Nat.lt_trans hij hj) hj hij hsame
  rw [NewFSM_eq]
  cases hfd : firstDuplicate [] ts with
  | none => exact absurd ((firstDuplicate_nil_eq_none_iff ts).mp hfd) hnd
  | some t =>
    refine ⟨t, ?_, rfl⟩
    have hmem : ∀ (seen : List eventKey) (l : List Transition),
        firstDuplicate seen l = some t → t ∈ l := by
      intro seen l
      induction l generalizing seen with
      | nil => intro h; simp [firstDuplicate] at h
      | cons a rest ih =>
        intro h
        by_cases hm : keyOf a ∈ seen
        · simp only [firstDuplicate, hm, if_true, Option.some.injEq] at h
          exact h ▸ List.mem_cons_self _ _
        · simp only [firstDuplicate, hm, if_false] at h
          exact List.mem_cons_of_mem _ (ih _ h)
    exact hmem [] ts hfd

/-- A list that declares `start` from Idle twice is rejected, here with a
registry that is otherwise acceptable. -/
theorem C5_duplicate_key_rejected_witness :
    ((clashTransitions.get ⟨0, by decide⟩).From = (clashTransitions.get ⟨1, by decide⟩).From ∧
      (clashTransitions.get ⟨0, by decide⟩).Event = (clashTransitions.get ⟨1, by decide⟩).Event) ∧
      ∃ t ∈ clashTransitions,
        NewFSM clashTransitions demoCallbacks = (none, some (.duplicateTransition t)) :=
  ⟨by decide, C5_duplicate_key_rejected clashTransitions demoCallbacks 0 1 (by decide) (by decide)
    (by decide)⟩

/-- C6, as stated, fails: with a list that declares `start` from Idle twice and
a registry whose only key, Ghost, is mentioned by no declaration, `NewFSM`
fails with the duplicate-transition error, not with an unknown-state error. -/
theorem C6_counterexample :
    (∃ c ∈ ghostCallbacks, ¬ Mentions clashTransitions c.1) ∧
      NewFSM clashTransitions ghostCallbacks
        = (none, some (.duplicateTransition { Event := "start", From := "Idle", To := "Idle" })) ∧
      ∀ s, NewFSM clashTransitions ghostCallbacks ≠ (none, some (.unknownState s)) :=
  ⟨⟨("Ghost", logging "Ghost"), List.mem_singleton.mpr rfl, by decide⟩, rfl,
    fun s h => by
      have h' : NewFSM clashTransitions ghostCallbacks
          = (none, some (.duplicateTransition { Event := "start", From := "Idle", To := "Idle" })) :=
        rfl
      rw [h'] at h
      simp at h⟩

/-- C6, amended: when no two entries of the transition list have the same
`(From, Event)` and some key state of the registry is neither the `From` nor
the `To` of any entry, `NewFSM` returns no machine and an unknown-state error,
which names such a key state of the registry. -/
theorem C6_unknown_state_rejected {σ : Type} (ts : Transitions) (cbs : Callbacks σ)
    (hdistinct : DistinctKeys ts) (hghost : ∃ c ∈ cbs, ¬ Mentions ts c.1) :
    ∃ c ∈ cbs, ¬ Mentions ts c.1 ∧ NewFSM ts cbs = (none, some (.unknownState c.1)) := by
  rw [NewFSM_eq, (firstDuplicate_nil_eq_none_iff ts).mpr hdistinct]
  cases hf : cbs.find? (fun c => (mapLookup (addStates ts []) c.1).isNone) with
  | some c =>
    have hc := List.find?_some hf
    exact ⟨c, List.mem_of_find?_eq_some hf, (isNone_addStates_iff ts c.1).mp hc, rfl⟩
  | none =>
    obtain ⟨c, hc, hn⟩ := hghost
    rw [List.find?_eq_none] at hf
    exact absurd ((isNone_addStates_iff ts c.1).mpr hn) (hf c hc)

/-- The table of the scenarios with a callback for Ghost is rejected with the
unknown-state error. -/
theorem C6_unknown_state_rejected_witness :
    DistinctKeys demoTransitions ∧ (∃ c ∈ ghostCallbacks, ¬ Mentions demoTransitions c.1) ∧
      ∃ c ∈ ghostCallbacks, ¬ Mentions demoTransitions c.1 ∧
        NewFSM demoTransitions ghostCallbacks = (none, some (.unknownState c.1)) :=
  ⟨by decide, ⟨("Ghost", logging "Ghost"), List.mem_singleton.mpr rfl, by decide⟩,
    C6_unknown_state_rejected demoTransitions ghostCallbacks (by decide)
      ⟨("Ghost", logging "Ghost"), List.mem_singleton.mpr rfl, by decide⟩⟩

/-- C7, as stated, fails: the table of the scenarios has no two entries with the
same `(From, Event)`, and with a registry that has a callback for Ghost `NewFSM`
returns no machine and the unknown-state error. -/
theorem C7_counterexample :
    DistinctKeys demoTransitions ∧
      NewFSM demoTransitions ghostCallbacks = (none, some (.unknownState "Ghost")) :=
  ⟨by decide, rfl⟩

/-- C7, amended: when no two entries of the transition list have the same
`(From, Event)` and every key state of the registry is the `From` or the `To`
of some entry, `NewFSM` returns a machine and a nil error. -/
theorem C7_distinct_keys_accepted {σ : Type} (ts : Transitions) (cbs : Callbacks σ)
    (hdistinct : DistinctKeys ts) (hknown : ∀ c ∈ cbs, Mentions ts c.1) :
    ∃ fsm, NewFSM ts cbs = (some fsm, none) :=
  ⟨_, (NewFSM_eq_some_iff ts cbs _).mpr ⟨hdistinct, hknown, rfl⟩⟩

/-- The table and the registry of the scenarios are accepted. -/
theorem C7_distinct_keys_accepted_witness :
    DistinctKeys demoTransitions ∧ (∀ c ∈ demoCallbacks, Mentions demoTransitions c.1) ∧
      ∃ fsm, NewFSM demoTransitions demoCallbacks = (some fsm, none) :=
  have hknown : ∀ c ∈ demoCallbacks, Mentions demoTransitions c.1 := by
    intro c hc
    simp only [demoCallbacks, List.mem_cons, List.mem_singleton, List.not_mem_nil, or_false] at hc
    rcases hc with rfl | rfl <;> decide
  ⟨by decide, hknown, C7_distinct_keys_accepted demoTransitions demoCallbacks (by decide) hknown⟩

/-- C8: in a machine returned by `NewFSM` with a nil error, every entry `t` of
the transition list is what the table yields under `(t.From, t.Event)`;
whatever the table yields under a key is an entry of the list with that `From`
and that `Event`; every pair stored in the table is an entry of the list under
its own key; and the table has as many entries as the list. -/
theorem C8_table_is_the_list {σ : Type} (ts : Transitions) (cbs : Callbacks σ) (fsm : FSM σ)
    (hbuild : NewFSM ts cbs = (some fsm, none)) :
    (∀ t ∈ ts, mapLookup fsm.transitions { From := t.From, Event := t.Event } = some t) ∧
      (∀ k t, mapLookup fsm.transitions k = some t →
        t ∈ ts ∧ k.From = t.From ∧ k.Event = t.Event) ∧
      (∀ k t, (k, t) ∈ fsm.transitions → t ∈ ts ∧ k.From = t.From ∧ k.Event = t.Event) ∧
      fsm.transitions.length = ts.length := by
  obtain ⟨hd, -, rfl⟩ := (NewFSM_eq_some_iff ts cbs fsm).mp hbuild
  refine ⟨?_, ?_, ?_, by simp⟩
  · intro t ht
    exact mapLookup_entryOf ts ((distinctKeys_iff_nodup ts).mp hd) t ht
  · intro k t h
    obtain ⟨hmem, hk⟩ := mapLookup_entryOf_some ts k t h
    subst hk
    exact ⟨hmem, rfl, rfl⟩
  · intro k t h
    simp only [List.mem_map, entryOf, Prod.mk.injEq] at h
    obtain ⟨a, ha, hk, rfl⟩ := h
    subst hk
    exact ⟨ha, rfl, rfl⟩

/-- The table of the machine of the scenarios: two entries, each found under
its key. -/
theorem C8_table_is_the_list_witness :
    NewFSM demoTransitions demoCallbacks = (some demoFSM, none) ∧
      mapLookup demoFSM.transitions { From := "Idle", Event := "ping" }
        = some { Event := "ping", From := "Idle", To := "Idle" } ∧
      demoFSM.transitions.length = 2 :=
  have h := C8_table_is_the_list demoTransitions demoCallbacks demoFSM rfl
  ⟨rfl, h.1 { Event := "ping", From := "Idle", To := "Idle" } (by decide), h.2.2.2⟩

/-! ## Export -/

theorem dotLoop_data (visit : List (eventKey × Transition)) (dot : String) :
    (dotLoop visit dot ++ "\r\n\x7d\n").data = dot.data ++ '\r' :: '\n' :: bodyChars visit := by
  induction visit generalizing dot with
  | nil => simp [dotLoop, bodyChars]
  | cons e rest ih =>
    obtain ⟨k, t⟩ := e
    simp only [dotLoop, bodyChars]
    rw [ih]
    simp only [String.data_append, List.append_assoc]
    rfl

theorem splitLines_line (a rest : List Char) (ha : '\n' ∉ a) :
    splitLines (a ++ '\n' :: rest) = a :: splitLines rest := by
  induction a with
  | nil => simp [splitLines]
  | cons c cs ih =>
    have hc : c ≠ '\n' := fun e => ha (e ▸ List.mem_cons_self _ _)
    have hcs : '\n' ∉ cs := fun h => ha (List.mem_cons_of_mem _ h)
    rw [List.cons_append, splitLines]
    simp only [hc, if_false, ih hcs]

/-- The lines of the header, the last one closed by the line break that
precedes the first edge or the closing brace. -/
theorem splitLines_header (rest : List Char) :
    splitLines (dotHeader.data ++ '\r' :: '\n' :: rest) =
      ["digraph FSM \x7b".data, "\trankdir=LR".data, "\tsize=\"100\"".data,
       "    node[width=1 fixedsize=false shape=ellipse style=filled fillcolor=\"skyblue\"]".data,
       "\t\r".data] ++ splitLines rest := by
  simp [dotHeader, splitLines]

theorem link_line_no_feed (t : Transition) (h : NamesSingleLine t) :
    '\n' ∉ (link t).data ++ ['\r'] := by
  obtain ⟨hf, ht, he⟩ := h
  unfold SingleLine at hf ht he
  simp only [link, String.data_append, List.mem_append, not_or]
  repeat' apply And.intro
  all_goals first | assumption | decide

theorem splitLines_bodyChars (visit : List (eventKey × Transition))
    (h : ∀ e ∈ visit, NamesSingleLine e.2) :
    splitLines (bodyChars visit) =
      visit.map (fun e => (link e.2).data ++ ['\r']) ++ ["\x7d".data, []] := by
  induction visit with
  | nil => simp [bodyChars, splitLines]
  | cons e rest ih =>
    obtain ⟨k, t⟩ := e
    have ht : NamesSingleLine t := h (k, t) (List.mem_cons_self _ _)
    have hrest : ∀ e ∈ rest, NamesSingleLine e.2 := fun e he => h e (List.mem_cons_of_mem _ he)
    have hsplit := splitLines_line ((link t).data ++ ['\r']) (bodyChars rest)
      (link_line_no_feed t ht)
    simp only [List.append_assoc, List.singleton_append] at hsplit
    simp only [bodyChars, hsplit, ih hrest, List.map_cons, List.cons_append]

theorem isEdgeLine_link (t : Transition) : isEdgeLine ((link t).data ++ ['\r']) = true := by
  have h₁ : "\t".data <+: (link t).data ++ ['\r'] :=
    ⟨t.From.data ++ " -> ".data ++ t.To.data ++ " [label=\"".data ++ t.Event.data
      ++ "\"]".data ++ ['\r'], by simp [link, String.data_append, List.append_assoc]⟩
  have h₂ : " -> ".data <:+: (link t).data ++ ['\r'] :=
    ⟨"\t".data ++ t.From.data, t.To.data ++ " [label=\"".data ++ t.Event.data
      ++ "\"]".data ++ ['\r'], by simp [link, String.data_append, List.append_assoc]⟩
  have h₃ : " [label=\"".data <:+: (link t).data ++ ['\r'] :=
    ⟨"\t".data ++ t.From.data ++ " -> ".data ++ t.To.data, t.Event.data
      ++ "\"]".data ++ ['\r'], by simp [link, String.data_append, List.append_assoc]⟩
  simp only [isEdgeLine, h₁, h₂, h₃, decide_True, Bool.and_self]

/-- The edge lines of the exported text, for names without a line feed: the
lines of the visited entries, in order. -/
theorem edgeLines_dotText (visit : List (eventKey × Transition))
    (h : ∀ e ∈ visit, NamesSingleLine e.2) :
    (splitLines (dotText visit).data).filter isEdgeLine =
      visit.map (fun e => (link e.2).data ++ ['\r']) := by
  unfold dotText
  rw [dotLoop_data, splitLines_header, splitLines_bodyChars visit h]
  have hhead : List.filter isEdgeLine
      ["digraph FSM \x7b".data, "\trankdir=LR".data, "\tsize=\"100\"".data,
       "    node[width=1 fixedsize=false shape=ellipse style=filled fillcolor=\"skyblue\"]".data,
       "\t\r".data] = [] := by decide
  have hfoot : List.filter isEdgeLine ["\x7d".data, []] = [] := by decide
  rw [List.filter_append, List.filter_append, hhead, hfoot, List.nil_append, List.append_nil]
  rw [List.filter_eq_self]
  intro l hl
  obtain ⟨e, -, rfl⟩ := List.mem_map.mp hl
  exact isEdgeLine_link e.2

/-- C10, as stated, fails: `NewFSM` accepts a table with one entry whose `To`
name holds a line break, the text exported for it has two edge lines, and it is
the very text exported for a table with two entries: no way of counting edges
in the text gives the number of table entries for both. -/
theorem C10_counterexample :
    NewFSM injectedTransitions [] = (some injectedFSM, none) ∧
      injectedFSM.transitions.length = 1 ∧
      edgeCount (ExportDot injectedFSM "fsm").content = 2 ∧
      NewFSM plainTransitions [] = (some plainFSM, none) ∧
      plainFSM.transitions.length = 2 ∧
      (ExportDot injectedFSM "fsm").content = (ExportDot plainFSM "fsm").content :=
  ⟨rfl, rfl, by decide, rfl, rfl, by decide⟩

/-- C10, amended: for a machine whose table holds only names without a line
feed, the edge lines of the text `ExportDot` writes are exactly the lines
`<tab><From> -> <To> [label="<Event>"]` (each closed by a carriage return) of
the table entries, one per entry; so the number of edge lines is the number of
table entries, in whatever order the loop visits the table. -/
theorem C10_one_edge_line_per_entry {σ : Type} (fsm : FSM σ) (outfile : String)
    (hnames : ∀ e ∈ fsm.transitions, NamesSingleLine e.2) :
    (splitLines (ExportDot fsm outfile).content.data).filter isEdgeLine =
        fsm.transitions.map (fun e => (link e.2).data ++ ['\r']) ∧
      edgeCount (ExportDot fsm outfile).content = fsm.transitions.length ∧
      ∀ visit : List (eventKey × Transition), visit.Perm fsm.transitions →
        edgeCount (dotText visit) = fsm.transitions.length := by
  refine ⟨edgeLines_dotText _ hnames, ?_, ?_⟩
  · show ((splitLines (dotText fsm.transitions).data).filter isEdgeLine).length = _
    rw [edgeLines_dotText _ hnames, List.length_map]
  · intro visit hperm
    have hv : ∀ e ∈ visit, NamesSingleLine e.2 := fun e he => hnames e (hperm.mem_iff.mp he)
    show ((splitLines (dotText visit).data).filter isEdgeLine).length = _
    rw [edgeLines_dotText _ hv, List.length_map, hperm.length_eq]

/-- The machine of the scenarios exports two edge lines, one per table entry. -/
theorem C10_one_edge_line_per_entry_witness :
    (∀ e ∈ demoFSM.transitions, NamesSingleLine e.2) ∧
      edgeCount (ExportDot demoFSM "fsm").content = 2 :=
  ⟨by decide, (C10_one_edge_line_per_entry demoFSM "fsm" (by decide)).2.1⟩

theorem hasSuffix_append (p suffix : String) : HasSuffix (p ++ suffix) suffix = true := by
  simp [HasSuffix, String.data_append]

/-- C11: `ExportDot` writes to the path `p` itself when `p` ends with ".dot" and
to `p` followed by ".dot" otherwise; the path it writes to ends with ".dot"; and
given that path as its output path, it writes to that very path. -/
theorem C11_output_path {σ : Type} (fsm : FSM σ) (p : String) :
    (ExportDot fsm p).path = (if HasSuffix p ".dot" then p else p ++ ".dot") ∧
      HasSuffix (ExportDot fsm p).path ".dot" = true ∧
      (ExportDot fsm (ExportDot fsm p).path).path = (ExportDot fsm p).path := by
  cases h : HasSuffix p ".dot" with
  | true => simp [ExportDot, dotPath, h]
  | false => simp [ExportDot, dotPath, h, hasSuffix_append]

/-! ## Construction: the result as a whole -/

/-- C12: `NewFSM` returns a machine and a nil error exactly when no two entries
of the transition list have the same `(From, Event)` and every key state of the
registry is the `From` or the `To` of some entry; and whatever its arguments,
its result is a machine with a nil error, or no machine with a
duplicate-transition error, or no machine with an unknown-state error. -/
theorem C12_result_shape {σ : Type} (ts : Transitions) (cbs : Callbacks σ) :
    ((∃ fsm, NewFSM ts cbs = (some fsm, none)) ↔
        DistinctKeys ts ∧ ∀ c ∈ cbs, Mentions ts c.1) ∧
      ((∃ fsm, NewFSM ts cbs = (some fsm, none)) ∨
        (∃ t, NewFSM ts cbs = (none, some (.duplicateTransition t))) ∨
        (∃ s, NewFSM ts cbs = (none, some (.unknownState s)))) := by
  constructor
  · constructor
    · rintro ⟨fsm, h⟩
      obtain ⟨hd, hk, -⟩ := (NewFSM_eq_some_iff ts cbs fsm).mp h
      exact ⟨hd, hk⟩
    · rintro ⟨hd, hk⟩
      exact ⟨_, (NewFSM_eq_some_iff ts cbs _).mpr ⟨hd, hk, rfl⟩⟩
  · rw [NewFSM_eq]
    cases firstDuplicate [] ts with
    | some t => exact Or.inr (Or.inl ⟨t, rfl⟩)
    | none =>
      cases cbs.find? (fun c => (mapLookup (addStates ts []) c.1).isNone) with
      | some c => exact Or.inr (Or.inr ⟨c.1, rfl⟩)
      | none => exact Or.inl ⟨_, rfl⟩

theorem mem_of_mapLookup {κ ν : Type} [DecidableEq κ] (m : GoMap κ ν) (k : κ) (v : ν)
    (h : mapLookup m k = some v) : (k, v) ∈ m := by
  induction m with
  | nil => simp [mapLookup] at h
  | cons e rest ih =>
    obtain ⟨k', v'⟩ := e
    by_cases hk : k' = k
    · simp only [mapLookup, hk, if_true, Option.some.injEq] at h
      simp [hk, h]
    · simp only [mapLookup, hk, if_false] at h
      exact List.mem_cons_of_mem _ (ih h)

/-- The second loop of `NewFSM` on a registry that is a map: the entries are
registered one after the other. -/
theorem addCallbacks_eq_append {σ : Type} (cbs pre : List (StateType × Callback σ))
    (h : ((pre ++ cbs).map Prod.fst).Nodup) : addCallbacks cbs pre = pre ++ cbs := by
  induction cbs generalizing pre with
  | nil => simp [addCallbacks]
  | cons c rest ih =>
    obtain ⟨state, callback⟩ := c
    have habs : mapLookup pre state = none := by
      rw [mapLookup_eq_none_iff]
      intro hmem
      rw [List.map_append, List.nodup_append] at h
      exact h.2.2 hmem (by simp)
    have h' : (((pre ++ [(state, callback)]) ++ rest).map Prod.fst).Nodup := by
      simpa [List.append_assoc] using h
    simp only [addCallbacks, mapStore_of_absent pre state callback habs, ih _ h']
    simp [List.append_assoc]

/-- C13: in a machine returned by `NewFSM` with a nil error, for a registry
argument that is a Go map (no key twice), the registry of the machine holds
exactly the entries of the argument, so a state has in it the callback it has
in the argument; and every state with an entry in the registry is the `From` or
the `To` of an entry of the table. -/
theorem C13_registry_is_callbacks {σ : Type} (ts : Transitions) (cbs : Callbacks σ)
    (fsm : FSM σ) (hbuild : NewFSM ts cbs = (some fsm, none)) (hmap : IsMap cbs) :
    fsm.callbacks = cbs ∧
      (∀ s, mapLookup fsm.callbacks s = mapLookup cbs s) ∧
      ∀ s cb, mapLookup fsm.callbacks s = some cb →
        ∃ e ∈ fsm.transitions, e.2.From = s ∨ e.2.To = s := by
  obtain ⟨-, hknown, rfl⟩ := (NewFSM_eq_some_iff ts cbs fsm).mp hbuild
  have hreg : addCallbacks cbs [] = cbs := by
    have := addCallbacks_eq_append cbs [] (by simpa [IsMap] using hmap)
    simpa using this
  refine ⟨hreg, fun s => by rw [hreg], ?_⟩
  intro s cb hs
  simp only [hreg] at hs
  obtain ⟨t, ht, hst⟩ := hknown (s, cb) (mem_of_mapLookup cbs s cb hs)
  exact ⟨entryOf t, List.mem_map_of_mem entryOf ht, hst⟩

/-- The machine of the scenarios: its registry is the registry given, and Idle
and Running are states of its table. -/
theorem C13_registry_is_callbacks_witness :
    NewFSM demoTransitions demoCallbacks = (some demoFSM, none) ∧ IsMap demoCallbacks ∧
      demoFSM.callbacks = demoCallbacks ∧
      ∀ s cb, mapLookup demoFSM.callbacks s = some cb →
        ∃ e ∈ demoFSM.transitions, e.2.From = s ∨ e.2.To = s :=
  have h := C13_registry_is_callbacks demoTransitions demoCallbacks demoFSM rfl (by decide)
  ⟨rfl, by decide, h.1, h.2.2⟩

/-- The first duplicate of a list: the declarations before it have distinct
keys (none of them among `seen`), and its key is one of theirs or among
`seen`. -/
theorem firstDuplicate_split (seen : List eventKey) (ts : List Transition) (t : Transition)
    (hseen : seen.Nodup) (h : firstDuplicate seen ts = some t) :
    ∃ pre post, ts = pre ++ t :: post ∧ (seen ++ pre.map keyOf).Nodup ∧
      keyOf t ∈ seen ++ pre.map keyOf := by
  induction ts generalizing seen with
  | nil => simp [firstDuplicate] at h
  | cons a rest ih =>
    by_cases hm : keyOf a ∈ seen
    · simp only [firstDuplicate, hm, if_true, Option.some.injEq] at h
      subst h
      exact ⟨[], rest, rfl, by simpa using hseen, by simpa using hm⟩
    · simp only [firstDuplicate, hm, if_false] at h
      have hseen' : (seen ++ [keyOf a]).Nodup := by
        rw [List.nodup_append]
        refine ⟨hseen, List.nodup_singleton _, ?_⟩
        intro b hb hb'
        simp only [List.mem_singleton] at hb'
        exact hm (hb' ▸ hb)
      obtain ⟨pre, post, hts, hnd, hmem⟩ := ih _ hseen' h
      refine ⟨a :: pre, post, by simp [hts], ?_, ?_⟩
      · simpa [List.append_assoc] using hnd
      · simpa [List.append_assoc] using hmem

/-- C14: when the transition list has two entries with the same
`(From, Event)`, the error `NewFSM` returns, whatever the registry (one with an
unknown state included), is the duplicate-transition error that carries the
first entry `t` of the list whose key is the key of an earlier entry: the
entries before `t` have distinct keys, and one of them has the key of `t`. -/
theorem C14_first_duplicate_reported {σ : Type} (ts : Transitions) (cbs : Callbacks σ)
    (hdup : ¬ DistinctKeys ts) :
    ∃ pre t post, ts = pre ++ t :: post ∧ DistinctKeys pre ∧
      (∃ a ∈ pre, a.From = t.From ∧ a.Event = t.Event) ∧
      NewFSM ts cbs = (none, some (.duplicateTransition t)) := by
  cases hfd : firstDuplicate [] ts with
  | none => exact absurd ((firstDuplicate_nil_eq_none_iff ts).mp hfd) hdup
  | some t =>
    obtain ⟨pre, post, hts, hnd, hmem⟩ := firstDuplicate_split [] ts t List.nodup_nil hfd
    simp only [List.nil_append] at hnd hmem
    obtain ⟨a, ha, hka⟩ := List.mem_map.mp hmem
    simp only [keyOf, eventKey.mk.injEq] at hka
    refine ⟨pre, t, post, hts, (distinctKeys_iff_nodup pre).mpr hnd, ⟨a, ha, hka.2, hka.1⟩, ?_⟩
    rw [NewFSM_eq, hfd]

/-- The list that declares `start` from Idle twice, with a registry for the
unknown state Ghost: the error carries the second declaration. -/
theorem C14_first_duplicate_reported_witness :
    ¬ DistinctKeys clashTransitions ∧
      ∃ pre t post, clashTransitions = pre ++ t :: post ∧ DistinctKeys pre ∧
        (∃ a ∈ pre, a.From = t.From ∧ a.Event = t.Event) ∧
        NewFSM clashTransitions ghostCallbacks = (none, some (.duplicateTransition t)) :=
  ⟨by decide, C14_first_duplicate_reported clashTransitions ghostCallbacks (by decide)⟩

/-! ## Construction: the order of the declarations -/

theorem distinctKeys_perm (ts ts' : Transitions) (hperm : ts'.Perm ts) :
    DistinctKeys ts' ↔ DistinctKeys ts := by
  rw [distinctKeys_iff_nodup, distinctKeys_iff_nodup]
  exact (hperm.map keyOf).nodup_iff

theorem mentions_perm (ts ts' : Transitions) (hperm : ts'.Perm ts) (s : StateType) :
    Mentions ts' s ↔ Mentions ts s := by
  unfold Mentions
  constructor
  · rintro ⟨t, ht, h⟩
    exact ⟨t, hperm.mem_iff.mp ht, h⟩
  · rintro ⟨t, ht, h⟩
    exact ⟨t, hperm.mem_iff.mpr ht, h⟩

theorem NewFSM_duplicate_iff {σ : Type} (ts : Transitions) (cbs : Callbacks σ) :
    (∃ t, NewFSM ts cbs = (none, some (.duplicateTransition t))) ↔ ¬ DistinctKeys ts := by
  rw [NewFSM_eq, ← firstDuplicate_nil_eq_none_iff]
  cases firstDuplicate [] ts with
  | some t => simp
  | none =>
    cases cbs.find? (fun c => (mapLookup (addStates ts []) c.1).isNone) <;> simp

theorem NewFSM_unknown_iff {σ : Type} (ts : Transitions) (cbs : Callbacks σ) :
    (∃ s, NewFSM ts cbs = (none, some (.unknownState s))) ↔
      DistinctKeys ts ∧ ∃ c ∈ cbs, ¬ Mentions ts c.1 := by
  rw [NewFSM_eq, ← firstDuplicate_nil_eq_none_iff]
  cases firstDuplicate [] ts with
  | some t => simp
  | none =>
    cases hf : cbs.find? (fun c => (mapLookup (addStates ts []) c.1).isNone) with
    | some c =>
      have hc := List.find?_some hf
      simp only [Prod.mk.injEq, true_and, Option.some.injEq, Error.unknownState.injEq,
        exists_eq', true_iff]
      exact ⟨c, List.mem_of_find?_eq_some hf, (isNone_addStates_iff ts c.1).mp hc⟩
    | none =>
      rw [List.find?_eq_none] at hf
      simp only [Prod.mk.injEq, reduceCtorEq, false_and, exists_false, true_and, false_iff,
        not_exists, not_and, not_not]
      intro c hc
      by_contra hn
      exact hf c hc ((isNone_addStates_iff ts c.1).mpr hn)

theorem NewFSM_success_iff {σ : Type} (ts : Transitions) (cbs : Callbacks σ) :
    (∃ fsm, NewFSM ts cbs = (some fsm, none)) ↔
      DistinctKeys ts ∧ ∀ c ∈ cbs, Mentions ts c.1 := by
  constructor
  · rintro ⟨fsm, h⟩
    obtain ⟨hd, hk, -⟩ := (NewFSM_eq_some_iff ts cbs fsm).mp h
    exact ⟨hd, hk⟩
  · rintro ⟨hd, hk⟩
    exact ⟨_, (NewFSM_eq_some_iff ts cbs _).mpr ⟨hd, hk, rfl⟩⟩

/-- Two tables made of the same declarations with distinct keys, in two orders,
yield the same under every key. -/
theorem mapLookup_entryOf_perm (ts ts' : Transitions) (hperm : ts'.Perm ts)
    (hd : DistinctKeys ts) (k : eventKey) :
    mapLookup (ts'.map entryOf) k = mapLookup (ts.map entryOf) k := by
  cases h : mapLookup (ts'.map entryOf) k with
  | some t =>
    obtain ⟨hmem, hk⟩ := mapLookup_entryOf_some ts' k t h
    subst hk
    exact (mapLookup_entryOf ts ((distinctKeys_iff_nodup ts).mp hd) t (hperm.mem_iff.mp hmem)).symm
  | none =>
    rw [mapLookup_eq_none_iff, map_fst_entryOf] at h
    symm
    rw [mapLookup_eq_none_iff, map_fst_entryOf]
    exact fun hm => h ((hperm.map keyOf).mem_iff.mpr hm)

/-- C15: for a permutation `ts'` of the transition list `ts` and any registry,
`NewFSM` succeeds on `ts'` exactly when it succeeds on `ts`, fails with a
duplicate-transition error on one exactly when on the other, and likewise with
an unknown-state error; and when it succeeds on both, the two tables yield the
same transition under every key and hold the same entries, and the two
registries are equal. -/
theorem C15_order_irrelevant {σ : Type} (ts ts' : Transitions) (cbs : Callbacks σ)
    (hperm : ts'.Perm ts) :
    ((∃ fsm', NewFSM ts' cbs = (some fsm', none)) ↔ (∃ fsm, NewFSM ts cbs = (some fsm, none))) ∧
      ((∃ t', NewFSM ts' cbs = (none, some (.duplicateTransition t'))) ↔
        (∃ t, NewFSM ts cbs = (none, some (.duplicateTransition t)))) ∧
      ((∃ s', NewFSM ts' cbs = (none, some (.unknownState s'))) ↔
        (∃ s, NewFSM ts cbs = (none, some (.unknownState s)))) ∧
      ∀ fsm fsm', NewFSM ts cbs = (some fsm, none) → NewFSM ts' cbs = (some fsm', none) →
        (∀ k, mapLookup fsm'.transitions k = mapLookup fsm.transitions k) ∧
          fsm'.transitions.Perm fsm.transitions ∧ fsm'.callbacks = fsm.callbacks := by
  have hd := distinctKeys_perm ts ts' hperm
  have hm := mentions_perm ts ts' hperm
  refine ⟨?_, ?_, ?_, ?_⟩
  · rw [NewFSM_success_iff, NewFSM_success_iff, hd]
    simp only [hm]
  · rw [NewFSM_duplicate_iff, NewFSM_duplicate_iff, hd]
  · rw [NewFSM_unknown_iff, NewFSM_unknown_iff, hd]
    simp only [hm]
  · intro fsm fsm' h h'
    obtain ⟨hdist, -, rfl⟩ := (NewFSM_eq_some_iff ts cbs fsm).mp h
    obtain ⟨-, -, rfl⟩ := (NewFSM_eq_some_iff ts' cbs fsm').mp h'
    exact ⟨mapLookup_entryOf_perm ts ts' hperm hdist, hperm.map entryOf, rfl⟩

/-- The table of the scenarios declared in the other order: `NewFSM` succeeds
on it too, and `start` from Idle is found in both tables. -/
theorem C15_order_irrelevant_witness :
    swappedTransitions.Perm demoTransitions ∧
      ((∃ fsm', NewFSM swappedTransitions demoCallbacks = (some fsm', none)) ↔
        (∃ fsm, NewFSM demoTransitions demoCallbacks = (some fsm, none))) ∧
      ∀ fsm fsm', NewFSM demoTransitions demoCallbacks = (some fsm, none) →
        NewFSM swappedTransitions demoCallbacks = (some fsm', none) →
        (∀ k, mapLookup fsm'.transitions k = mapLookup fsm.transitions k) ∧
          fsm'.transitions.Perm fsm.transitions ∧ fsm'.callbacks = fsm.callbacks :=
  have h := C15_order_irrelevant demoTransitions swappedTransitions demoCallbacks
    (List.Perm.swap _ _ _)
  ⟨List.Perm.swap _ _ _, h.1, h.2.2.2⟩

/-! ## Dispatch with a callback missing -/

theorem registered_of_callbackAt {σ : Type} (fsm : FSM σ) (owner : StateType)
    (f : Context → Nat → EventType → ArgsType → World σ → World σ)
    (h : fsm.callbackAt owner = some f) : mapLookup fsm.callbacks owner = some (some f) := by
  unfold FSM.callbackAt at h
  cases hl : mapLookup fsm.callbacks owner with
  | none => simp [hl] at h
  | some cb =>
    simp only [hl] at h
    rw [h]

theorem callbackAt_of_absent {σ : Type} (fsm : FSM σ) (owner : StateType)
    (h : mapLookup fsm.callbacks owner = none) : fsm.callbackAt owner = none := by
  simp [FSM.callbackAt, h]

theorem SendEvent_of_nil_event {σ : Type} (fsm : FSM σ) (ctx : Context) (state : Nat)
    (event : EventType) (args : ArgsType) (w : World σ) (t : Transition)
    (h : mapLookup fsm.transitions { From := (w.heap state).Current, Event := event } = some t)
    (hf : fsm.callbackAt t.From = none) :
    SendEvent fsm ctx state event args w =
      { outcome := .nilCallback t.From
        world := w
        trace := []
        logs := ["handle event[" ++ event ++ "], transition from [" ++ t.From ++ "] to ["
          ++ t.To ++ "]"] } := by
  simp only [SendEvent, h]
  simp [dispatch, invoke, Infof, hf, bind, Except.bind]

theorem SendEvent_of_nil_entry {σ : Type} (fsm : FSM σ) (ctx : Context) (state : Nat)
    (event : EventType) (args : ArgsType) (w : World σ) (t : Transition)
    (f : Context → Nat → EventType → ArgsType → World σ → World σ)
    (h : mapLookup fsm.transitions { From := (w.heap state).Current, Event := event } = some t)
    (hne : t.From ≠ t.To) (hf : fsm.callbackAt t.From = some f)
    (hg : fsm.callbackAt t.To = none) :
    SendEvent fsm ctx state event args w =
      { outcome := .nilCallback t.To
        world := (f ctx state ExitEvent args (f ctx state event args w)).setState state t.To
        trace :=
          [{ action := .call t.From ctx state event args, seen := (w.heap state).Current },
           { action := .call t.From ctx state ExitEvent args,
             seen := ((f ctx state event args w).heap state).Current },
           { action := .set state t.To,
             seen := ((f ctx state ExitEvent args (f ctx state event args w)).heap state).Current }]
        logs := ["handle event[" ++ event ++ "], transition from [" ++ t.From ++ "] to ["
          ++ t.To ++ "]"] } := by
  simp only [SendEvent, h]
  simp [dispatch, invoke, Infof, writeHolder, hf, hg, hne, bind, Except.bind, pure,
    Except.pure, World.setState]

theorem current_setState {σ : Type} (w : World σ) (state : Nat) (next : StateType) :
    ((w.setState state next).heap state).Current = next := by
  simp [World.setState, State.Current, State.Set]

/-- C16: in a machine built by `NewFSM`, when a transition `t` is found for the
holder's state and the event and no callback is registered for `t.From`,
`SendEvent` does not return: it faults on the nil function found for `t.From`,
having taken no step (no callback has run, no `Set`), in the world it started
in, where the holder reads `t.From`. -/
theorem C16_missing_From_callback_faults {σ : Type} (ts : Transitions) (cbs : Callbacks σ)
    (fsm : FSM σ) (hbuild : NewFSM ts cbs = (some fsm, none))
    (ctx : Context) (state : Nat) (event : EventType) (args : ArgsType) (w : World σ)
    (t : Transition)
    (hlook : mapLookup fsm.transitions { From := (w.heap state).Current, Event := event } = some t)
    (hnone : mapLookup fsm.callbacks t.From = none) :
    (SendEvent fsm ctx state event args w).outcome = .nilCallback t.From ∧
      (SendEvent fsm ctx state event args w).trace = [] ∧
      (SendEvent fsm ctx state event args w).world = w ∧
      ((SendEvent fsm ctx state event args w).world.heap state).Current = t.From := by
  have hcur : t.From = (w.heap state).Current := (lookup_of_built ts cbs fsm hbuild _ t hlook).2.1
  rw [SendEvent_of_nil_event fsm ctx state event args w t hlook
    (callbackAt_of_absent fsm _ hnone)]
  exact ⟨rfl, rfl, rfl, hcur.symm⟩

/-- The one-edge machine with an empty registry: `start` from Idle faults on
the nil function of Idle, with an empty trace and the holder reading Idle. -/
theorem C16_missing_From_callback_faults_witness :
    NewFSM startTransitions [] = (some bareFSM, none) ∧
      (SendEvent bareFSM ⟨1⟩ 0 "start" ⟨2⟩ (worldAt "Idle")).outcome = .nilCallback "Idle" ∧
      (SendEvent bareFSM ⟨1⟩ 0 "start" ⟨2⟩ (worldAt "Idle")).trace = [] ∧
      ((SendEvent bareFSM ⟨1⟩ 0 "start" ⟨2⟩ (worldAt "Idle")).world.heap 0).Current = "Idle" :=
  have h := C16_missing_From_callback_faults startTransitions [] bareFSM rfl ⟨1⟩ 0 "start" ⟨2⟩
    (worldAt "Idle") { Event := "start", From := "Idle", To := "Running" } rfl rfl
  ⟨rfl, h.1, h.2.1, h.2.2.2⟩

/-- C17: in a machine built by `NewFSM` of a list with an entry `t`,
`t.From ≠ t.To`, with a callback `f` registered for `t.From` and none for
`t.To`, `SendEvent` of `t.Event` with the holder reading `t.From` faults on the
nil function found for `t.To` after exactly three steps: `f` with the user
event, `f` with `ExitEvent`, `Set(t.To)`; the world it leaves is the one these
steps produce, and the holder reads `t.To` in it. -/
theorem C17_missing_To_callback_faults_late {σ : Type} (ts : Transitions) (cbs : Callbacks σ)
    (fsm : FSM σ) (hbuild : NewFSM ts cbs = (some fsm, none))
    (ctx : Context) (state : Nat) (args : ArgsType) (w : World σ)
    (t : Transition) (ht : t ∈ ts) (hne : t.From ≠ t.To)
    (hcur : (w.heap state).Current = t.From)
    (f : Context → Nat → EventType → ArgsType → World σ → World σ)
    (hf : mapLookup fsm.callbacks t.From = some (some f))
    (hnone : mapLookup fsm.callbacks t.To = none) :
    (SendEvent fsm ctx state t.Event args w).outcome = .nilCallback t.To ∧
      (SendEvent fsm ctx state t.Event args w).trace.map Step.action =
        [.call t.From ctx state t.Event args, .call t.From ctx state ExitEvent args,
         .set state t.To] ∧
      (SendEvent fsm ctx state t.Event args w).world =
        (f ctx state ExitEvent args (f ctx state t.Event args w)).setState state t.To ∧
      ((SendEvent fsm ctx state t.Event args w).world.heap state).Current = t.To := by
  obtain ⟨hd, -, hfsm⟩ := (NewFSM_eq_some_iff ts cbs fsm).mp hbuild
  have hlook : mapLookup fsm.transitions { From := (w.heap state).Current, Event := t.Event }
      = some t := by
    rw [hcur, hfsm]
    exact mapLookup_entryOf ts ((distinctKeys_iff_nodup ts).mp hd) t ht
  rw [SendEvent_of_nil_entry fsm ctx state t.Event args w t f hlook hne
    (callbackAt_of_registered fsm _ f hf) (callbackAt_of_absent fsm _ hnone)]
  exact ⟨rfl, rfl, rfl, current_setState _ _ _⟩

/-- The one-edge machine with a callback for Idle only: `start` from Idle
faults on the nil function of Running after both Idle callbacks have logged,
and the holder reads Running. -/
theorem C17_missing_To_callback_faults_late_witness :
    NewFSM startTransitions halfCallbacks = (some halfFSM, none) ∧
      (SendEvent halfFSM ⟨1⟩ 0 "start" ⟨2⟩ (worldAt "Idle")).outcome = .nilCallback "Running" ∧
      (SendEvent halfFSM ⟨1⟩ 0 "start" ⟨2⟩ (worldAt "Idle")).world.user
        = ["Idle:start", "Idle:Exit event"] ∧
      ((SendEvent halfFSM ⟨1⟩ 0 "start" ⟨2⟩ (worldAt "Idle")).world.heap 0).Current = "Running" :=
  have h := C17_missing_To_callback_faults_late startTransitions halfCallbacks halfFSM rfl ⟨1⟩ 0
    ⟨2⟩ (worldAt "Idle") { Event := "start", From := "Idle", To := "Running" } (by decide)
    (by decide) rfl (loggingFn "Idle") rfl rfl
  ⟨rfl, h.1, by rw [h.2.2.1]; decide, h.2.2.2⟩

/-! ## Sequences of dispatches -/

/-- One call of `SendEvent` on a machine built by `NewFSM`, with callbacks that
do not write the holder: either the holder is as before and the call made no
`Set`, or the holder reads the `To` of a declaration. -/
theorem SendEvent_holder_step {σ : Type} (ts : Transitions) (cbs : Callbacks σ) (fsm : FSM σ)
    (hbuild : NewFSM ts cbs = (some fsm, none)) (state : Nat)
    (hquiet : ∀ s f, mapLookup fsm.callbacks s = some (some f) →
      ∀ ctx e a w', (f ctx state e a w').heap state = w'.heap state)
    (ctx : Context) (event : EventType) (args : ArgsType) (w : World σ) :
    ((SendEvent fsm ctx state event args w).world.heap state = w.heap state ∧
        ∀ st ∈ (SendEvent fsm ctx state event args w).trace,
          ∀ next, st.action ≠ .set state next) ∨
      ∃ t ∈ ts, t.To = ((SendEvent fsm ctx state event args w).world.heap state).Current := by
  cases hl : mapLookup fsm.transitions { From := (w.heap state).Current, Event := event } with
  | none =>
    rw [SendEvent_of_absent fsm ctx state event args w hl]
    exact Or.inl ⟨rfl, by simp⟩
  | some t =>
    have ht : t ∈ ts := (lookup_of_built ts cbs fsm hbuild _ t hl).1
    cases hcf : fsm.callbackAt t.From with
    | none =>
      rw [SendEvent_of_nil_event fsm ctx state event args w t hl hcf]
      exact Or.inl ⟨rfl, by simp⟩
    | some f =>
      have hqf := hquiet _ f (registered_of_callbackAt fsm _ f hcf)
      by_cases hself : t.From = t.To
      · rw [SendEvent_of_loop fsm ctx state event args w t f hl hself hcf]
        refine Or.inl ⟨hqf ctx event args w, ?_⟩
        intro st hst next
        simp only [List.mem_singleton] at hst
        subst hst
        simp
      · refine Or.inr ⟨t, ht, ?_⟩
        cases hcg : fsm.callbackAt t.To with
        | none =>
          rw [SendEvent_of_nil_entry fsm ctx state event args w t f hl hself hcf hcg]
          exact (current_setState _ _ _).symm
        | some g =>
          have hqg := hquiet _ g (registered_of_callbackAt fsm _ g hcg)
          rw [SendEvent_of_move fsm ctx state event args w t f g hl hself hcf hcg]
          show t.To = ((g ctx state EntryEvent args _).heap state).Current
          rw [hqg]
          exact (current_setState _ _ _).symm

theorem sendAll_append {σ : Type} (fsm : FSM σ) (state : Nat)
    (pre post : List (Context × EventType × ArgsType)) (w : World σ) :
    sendAll fsm state (pre ++ post) w = sendAll fsm state post (sendAll fsm state pre w) := by
  induction pre generalizing w with
  | nil => rfl
  | cons c rest ih =>
    obtain ⟨ctx, event, args⟩ := c
    rw [List.cons_append]
    simp only [sendAll]
    exact ih _

/-- After a sequence of calls the holder reads what it read before the
sequence, or the `To` of a declaration. -/
theorem sendAll_holder {σ : Type} (ts : Transitions) (cbs : Callbacks σ) (fsm : FSM σ)
    (hbuild : NewFSM ts cbs = (some fsm, none)) (state : Nat)
    (hquiet : ∀ s f, mapLookup fsm.callbacks s = some (some f) →
      ∀ ctx e a w', (f ctx state e a w').heap state = w'.heap state)
    (calls : List (Context × EventType × ArgsType)) (w : World σ) :
    ((sendAll fsm state calls w).heap state).Current = (w.heap state).Current ∨
      ∃ t ∈ ts, t.To = ((sendAll fsm state calls w).heap state).Current := by
  induction calls generalizing w with
  | nil => exact Or.inl rfl
  | cons c rest ih =>
    obtain ⟨ctx, event, args⟩ := c
    simp only [sendAll]
    rcases ih (SendEvent fsm ctx state event args w).world with hsame | hto
    · rcases SendEvent_holder_step ts cbs fsm hbuild state hquiet ctx event args w with h | h
      · exact Or.inl (by rw [hsame, h.1])
      · obtain ⟨t, ht, heq⟩ := h
        exact Or.inr ⟨t, ht, by rw [hsame, heq]⟩
    · exact Or.inr hto

/-- C18: on a machine built by `NewFSM`, with callbacks that do not write the
holder, after any finite sequence of calls of `SendEvent` on the holder (each
starting where the previous one ended, however it ended) the holder reads what
it read at the start or the `To` of an entry of the transition list; and if one
of the calls made a `Set` (it took a transition with `From ≠ To`), the holder
reads, after the whole sequence, a state that is the `From` or the `To` of an
entry of the list. -/
theorem C18_reachable_states {σ : Type} (ts : Transitions) (cbs : Callbacks σ) (fsm : FSM σ)
    (hbuild : NewFSM ts cbs = (some fsm, none)) (state : Nat)
    (hquiet : ∀ s f, mapLookup fsm.callbacks s = some (some f) →
      ∀ ctx e a w', (f ctx state e a w').heap state = w'.heap state)
    (calls : List (Context × EventType × ArgsType)) (w : World σ) :
    (((sendAll fsm state calls w).heap state).Current = (w.heap state).Current ∨
        ∃ t ∈ ts, t.To = ((sendAll fsm state calls w).heap state).Current) ∧
      ∀ pre c post, calls = pre ++ c :: post →
        (∃ st ∈ (SendEvent fsm c.1 state c.2.1 c.2.2 (sendAll fsm state pre w)).trace,
          ∃ next, st.action = .set state next) →
        Mentions ts ((sendAll fsm state calls w).heap state).Current := by
  refine ⟨sendAll_holder ts cbs fsm hbuild state hquiet calls w, ?_⟩
  rintro pre ⟨ctx, event, args⟩ post rfl ⟨st, hst, next, hset⟩
  have hmid : Mentions ts
      ((SendEvent fsm ctx state event args (sendAll fsm state pre w)).world.heap state).Current := by
    rcases SendEvent_holder_step ts cbs fsm hbuild state hquiet ctx event args
      (sendAll fsm state pre w) with h | h
    · exact absurd hset (h.2 st hst next)
    · obtain ⟨t, ht, heq⟩ := h
      exact ⟨t, ht, Or.inr heq⟩
  rw [sendAll_append]
  simp only [sendAll]
  rcases sendAll_holder ts cbs fsm hbuild state hquiet post
    (SendEvent fsm ctx state event args (sendAll fsm state pre w)).world with h | h
  · rw [h]
    exact hmid
  · obtain ⟨t, ht, heq⟩ := h
    exact ⟨t, ht, Or.inr heq⟩

/-- The machine of the scenarios, sent `start`, the undeclared `stop` and
`ping` from Idle: the holder ends reading Running, the `To` of `start`. -/
theorem C18_reachable_states_witness :
    NewFSM demoTransitions demoCallbacks = (some demoFSM, none) ∧
      ((sendAll demoFSM 0 [(⟨1⟩, "start", ⟨2⟩), (⟨1⟩, "stop", ⟨2⟩), (⟨1⟩, "ping", ⟨2⟩)]
          (worldAt "Idle")).heap 0).Current = "Running" ∧
      (((sendAll demoFSM 0 [(⟨1⟩, "start", ⟨2⟩), (⟨1⟩, "stop", ⟨2⟩), (⟨1⟩, "ping", ⟨2⟩)]
            (worldAt "Idle")).heap 0).Current = ((worldAt "Idle").heap 0).Current ∨
        ∃ t ∈ demoTransitions,
          t.To = ((sendAll demoFSM 0 [(⟨1⟩, "start", ⟨2⟩), (⟨1⟩, "stop", ⟨2⟩), (⟨1⟩, "ping", ⟨2⟩)]
            (worldAt "Idle")).heap 0).Current) :=
  ⟨rfl, by decide,
    (C18_reachable_states demoTransitions demoCallbacks demoFSM rfl 0
      (by
        intro s f hs ctx e a w'
        simp only [demoFSM, demoCallbacks, mapLookup, logging] at hs
        split_ifs at hs
        · simp only [Option.some.injEq] at hs
          subst hs
          rfl
        · simp only [Option.some.injEq] at hs
          subst hs
          rfl)
      [(⟨1⟩, "start", ⟨2⟩), (⟨1⟩, "stop", ⟨2⟩), (⟨1⟩, "ping", ⟨2⟩)] (worldAt "Idle")).1⟩

end fsm
